import Mathlib

/-!
Verification of the reconciliation engine of the file-catalog program
(`catalog.py`).  The Python data structures are embedded shallowly:

* a Python `dict` is an association list with distinct keys; building a
  dict from an iterable of pairs (`dict(it())`, dict comprehensions) is
  `pyDict`, which keeps the last value assigned to a key;
* the sqlite `files` table is a `List Record`; each SQL statement used by
  `compare` becomes an explicit state transformer;
* the `is_open_for_write` call and the `stat` call are oracles passed in
  as functions, whose outcomes (including raised exceptions) are modelled
  by inductive result types.
-/

namespace Catalog

/-- A file identity: the `(st_dev, st_ino)` pair (signed 64-bit encoded). -/
abbrev FileId := Int × Int

/-- Observed attributes: `(root, relpath, filesize, utcmtime)`. -/
abbrev Attrs := String × String × Int × Int

/-- The `FilesDict` type of `catalog.py`: `Dict[FileID, Tuple[str, str, int, int]]`,
embedded as an association list (well-formed ones have distinct keys). -/
abbrev FilesDict := List (FileId × Attrs)

section AssocList

variable {α β : Type} [DecidableEq α]

/-- Python `d[k]` / `k in d` lookup on an association list (first match). -/
def alookup (k : α) : List (α × β) → Option β
  | [] => none
  | p :: t => if p.1 = k then some p.2 else alookup k t

/-- The key view `d.keys()`. -/
def akeys (l : List (α × β)) : List α := l.map Prod.fst

/-- Python dict assignment `d[k] = v`: overwrite in place if the key is
present, otherwise append. -/
def pyInsert (d : List (α × β)) (k : α) (v : β) : List (α × β) :=
  if k ∈ akeys d then d.map (fun p => if p.1 = k then (k, v) else p) else d ++ [(k, v)]

/-- Python dict construction from a sequence of pairs (`dict(pairs)`):
later pairs overwrite earlier ones. -/
def pyDict (l : List (α × β)) : List (α × β) := l.foldl (fun d p => pyInsert d p.1 p.2) []

theorem alookup_append (k : α) (l₁ l₂ : List (α × β)) :
    alookup k (l₁ ++ l₂) =
      match alookup k l₁ with
      | some v => some v
      | none => alookup k l₂ := by
  induction l₁ with
  | nil => simp [alookup]
  | cons p t ih =>
      by_cases h : p.1 = k <;> simp [alookup, h, ih]

theorem alookup_eq_none_iff (k : α) (l : List (α × β)) :
    alookup k l = none ↔ k ∉ akeys l := by
  induction l with
  | nil => simp [alookup, akeys]
  | cons p t ih =>
      by_cases h : p.1 = k
      · subst h
        simp [alookup, akeys]
      · simp [alookup, h, akeys, ih, Ne.symm h]

theorem alookup_isSome_iff (k : α) (l : List (α × β)) :
    (alookup k l).isSome ↔ k ∈ akeys l := by
  rw [Option.isSome_iff_ne_none, ne_eq, alookup_eq_none_iff, not_not]

theorem akeys_map_replace (k : α) (v : β) (d : List (α × β)) :
    akeys (d.map (fun p => if p.1 = k then (k, v) else p)) = akeys d := by
  induction d with
  | nil => rfl
  | cons p t ih =>
      simp only [akeys, List.map_cons] at ih ⊢
      by_cases h : p.1 = k
      · rw [if_pos h, ih, h]
      · rw [if_neg h, ih]

theorem alookup_map_replace (k k' : α) (v : β) (d : List (α × β)) :
    alookup k (d.map (fun p => if p.1 = k' then (k', v) else p)) =
      if k' = k ∧ k' ∈ akeys d then some v else alookup k d := by
  induction d with
  | nil => simp [alookup, akeys]
  | cons p t ih =>
      by_cases hp : p.1 = k'
      · by_cases hk : k' = k
        · subst hk
          simp [alookup, hp, akeys]
        · have hpk : ¬ p.1 = k := fun h => hk (hp.symm.trans h)
          simp [alookup, hp, hk, hpk, ih, akeys]
      · by_cases hpk : p.1 = k
        · have hk : ¬ k' = k := fun h => hp (hpk.trans h.symm)
          have hk' : ¬ k = k' := fun h => hk h.symm
          simp [alookup, hp, hpk, hk, hk']
        · have hp' : ¬ k' = p.1 := fun h => hp h.symm
          simp only [alookup, List.map_cons, if_neg hp, if_neg hpk, ih, akeys]
          by_cases hk : k' = k
          · subst hk
            refine if_congr ?_ rfl rfl
            simp only [List.mem_cons, true_and]
            exact ⟨Or.inr, fun h => h.resolve_left hp'⟩
          · rw [if_neg (fun hand => hk hand.1), if_neg (fun hand => hk hand.1)]

theorem alookup_pyInsert (k k' : α) (v : β) (d : List (α × β)) :
    alookup k (pyInsert d k' v) = if k' = k then some v else alookup k d := by
  unfold pyInsert
  by_cases hmem : k' ∈ akeys d
  · rw [if_pos hmem, alookup_map_replace]
    by_cases hk : k' = k
    · subst hk
      simp [hmem]
    · simp [hk]
  · rw [if_neg hmem, alookup_append]
    by_cases hk : k' = k
    · subst hk
      have h0 : alookup k' d = none := (alookup_eq_none_iff k' d).mpr hmem
      simp [h0, alookup]
    · cases h : alookup k d with
      | some w => simp [h, hk]
      | none => simp [h, alookup, hk]

theorem alookup_foldl_pyInsert (l d : List (α × β)) (k : α) :
    alookup k (l.foldl (fun d p => pyInsert d p.1 p.2) d) =
      match alookup k l.reverse with
      | some v => some v
      | none => alookup k d := by
  induction l generalizing d with
  | nil => simp [alookup]
  | cons p t ih =>
      rw [List.foldl_cons, ih, List.reverse_cons, alookup_append]
      cases h : alookup k t.reverse with
      | some v => rfl
      | none =>
          simp only [alookup_pyInsert]
          by_cases hk : p.1 = k <;> simp [alookup, hk]

/-- Lookup in a Python dict built from a pair list returns the value of the
last pair carrying the key. -/
theorem alookup_pyDict (k : α) (l : List (α × β)) :
    alookup k (pyDict l) = alookup k l.reverse := by
  rw [pyDict, alookup_foldl_pyInsert]
  cases h : alookup k l.reverse <;> simp [alookup]

theorem akeys_pyInsert (k : α) (v : β) (d : List (α × β)) :
    akeys (pyInsert d k v) = if k ∈ akeys d then akeys d else akeys d ++ [k] := by
  unfold pyInsert
  by_cases hmem : k ∈ akeys d
  · rw [if_pos hmem, if_pos hmem, akeys_map_replace]
  · rw [if_neg hmem, if_neg hmem]
    simp [akeys]

/-- Python dict keys are distinct. -/
theorem nodup_akeys_pyDict (l : List (α × β)) : (akeys (pyDict l)).Nodup := by
  suffices h : ∀ d : List (α × β), (akeys d).Nodup →
      (akeys (l.foldl (fun d p => pyInsert d p.1 p.2) d)).Nodup by
    exact h [] (by simp [akeys])
  induction l with
  | nil => intro d hd; exact hd
  | cons p t ih =>
      intro d hd
      rw [List.foldl_cons]
      refine ih _ ?_
      rw [akeys_pyInsert]
      by_cases hmem : p.1 ∈ akeys d
      · simpa [hmem] using hd
      · simp only [hmem, if_false]
        rw [List.nodup_append]
        refine ⟨hd, List.nodup_singleton _, ?_⟩
        intro a ha hb
        rw [List.mem_singleton] at hb
        exact hmem (hb ▸ ha)

theorem mem_akeys_pyDict (k : α) (l : List (α × β)) :
    k ∈ akeys (pyDict l) ↔ k ∈ akeys l := by
  rw [← alookup_isSome_iff, alookup_pyDict, alookup_isSome_iff]
  simp [akeys, List.map_reverse]

theorem mem_akeys_iff_alookup (k : α) (l : List (α × β)) :
    k ∈ akeys l ↔ ∃ v, alookup k l = some v := by
  rw [← alookup_isSome_iff]
  cases h : alookup k l <;> simp [h]

theorem alookup_mem (k : α) (v : β) (l : List (α × β)) (h : alookup k l = some v) :
    (k, v) ∈ l := by
  induction l with
  | nil => simp [alookup] at h
  | cons p t ih =>
      obtain ⟨p1, p2⟩ := p
      by_cases hp : p1 = k
      · simp [alookup, hp] at h
        subst hp
        subst h
        exact List.mem_cons_self _ _
      · simp only [alookup, hp, if_false] at h
        exact List.mem_cons_of_mem _ (ih h)

/-- On a list with distinct keys, a member pair is exactly the lookup result. -/
theorem alookup_of_mem_nodup (k : α) (v : β) (l : List (α × β))
    (hnd : (akeys l).Nodup) (h : (k, v) ∈ l) : alookup k l = some v := by
  induction l with
  | nil => simp at h
  | cons p t ih =>
      rw [akeys, List.map_cons, List.nodup_cons] at hnd
      rcases List.mem_cons.mp h with h1 | h2
      · rw [← h1]
        simp [alookup]
      · have hmem : k ∈ List.map Prod.fst t := List.mem_map.mpr ⟨(k, v), h2, rfl⟩
        have hk : ¬ p.1 = k := fun hpk => hnd.1 (by rw [hpk]; exact hmem)
        rw [alookup, if_neg hk]
        exact ih hnd.2 h2

end AssocList

/-! ## The in-use guard (`is_open_for_write`) and the log channel -/

/-- Outcome of one `is_open_for_write(fullpath)` call: a returned boolean, or
one of the exception classes caught by `updated_nodes`. -/
inductive GuardResult where
  | notInUse
  | inUse
  | permissionError
  | notFoundError
  | osError
deriving DecidableEq

/-- The in-use guard, keyed by the full path it is called on. -/
abbrev Guard := String → GuardResult

/-- Severity of a log message emitted by `updated_nodes`. -/
inductive LogLevel where
  | info
  | warning
  | error
deriving DecidableEq

/-! ## `updated_nodes` (catalog.py lines 154-182) -/

/-- `updated_nodes(fs, db)`: walks the intersection `fs.keys() & db.keys()`
(in snapshot order), sorting each identity into `equal` (attributes equal),
`updated` (attributes differ and the guard reports not in use), or the skip/log
channel (third component, modelling the `logger` calls: in-use files at info
level, permission/not-found errors at warning level, other OS errors at error
level). -/
def updated_nodes (g : Guard) : FilesDict → FilesDict →
    List FileId × List FileId × List (FileId × LogLevel)
  | [], _ => ([], [], [])
  | (id, fs_info) :: rest, db =>
      let r := updated_nodes g rest db
      match alookup id db with
      | none => r
      | some db_info =>
          if fs_info = db_info then (id :: r.1, r.2.1, r.2.2)
          else
            match g (fs_info.1 ++ fs_info.2.1) with
            | .notInUse => (r.1, id :: r.2.1, r.2.2)
            | .inUse => (r.1, r.2.1, (id, .info) :: r.2.2)
            | .permissionError => (r.1, r.2.1, (id, .warning) :: r.2.2)
            | .notFoundError => (r.1, r.2.1, (id, .warning) :: r.2.2)
            | .osError => (r.1, r.2.1, (id, .error) :: r.2.2)

/-- The identities for which `updated_nodes` invokes `is_open_for_write`:
exactly the intersecting identities whose attribute tuples differ. -/
def guard_calls (db : FilesDict) : List (FileId × Attrs) → List FileId
  | [] => []
  | (id, fs_info) :: rest =>
      match alookup id db with
      | none => guard_calls db rest
      | some db_info =>
          if fs_info = db_info then guard_calls db rest
          else id :: guard_calls db rest

/-! ## The catalog store (`files` table) and the SQL statements of `compare` -/

/-- One row of the sqlite `files` table. -/
structure Record where
  begin_date : Nat
  end_date : Nat
  device : Int
  inode : Int
  root : String
  path : String
  filesize : Int
  utcmtime : Int
  deleted : Bool
deriving DecidableEq

/-- The `files` table. -/
abbrev State := List Record

def recordId (r : Record) : FileId := (r.device, r.inode)

def recordAttrs (r : Record) : Attrs := (r.root, r.path, r.filesize, r.utcmtime)

/-- A row freshly inserted by
`INSERT INTO files (device, inode, root, path, filesize, utcmtime) VALUES (...)`:
`begin_date` and `end_date` default to `CURRENT_TIMESTAMP` and `deleted` to 0. -/
def mkRecord (now : Nat) (id : FileId) (a : Attrs) : Record :=
  { begin_date := now, end_date := now, device := id.1, inode := id.2,
    root := a.1, path := a.2.1, filesize := a.2.2.1, utcmtime := a.2.2.2,
    deleted := false }

/-- Effect of `UPDATE files SET deleted=1 WHERE device=? AND inode=? AND deleted=0`
on one row. -/
def markDeletedRow (id : FileId) (r : Record) : Record :=
  if r.device = id.1 ∧ r.inode = id.2 ∧ r.deleted = false then
    { r with deleted := true }
  else r

/-- Effect of `UPDATE files SET end_date=CURRENT_TIMESTAMP WHERE device=? AND inode=? AND deleted=0`
on one row. -/
def touchRow (now : Nat) (id : FileId) (r : Record) : Record :=
  if r.device = id.1 ∧ r.inode = id.2 ∧ r.deleted = false then
    { r with end_date := now }
  else r

/-- `batch_executer`: run one UPDATE statement once per identity in the batch. -/
def runBatch (upd : FileId → Record → Record) (ids : List FileId) (s : State) : State :=
  ids.foldl (fun s id => s.map (upd id)) s

/-- `FilesDB.read_database(path)`: the dict comprehension over
`SELECT device, inode, root, path, filesize, utcmtime FROM files WHERE deleted=? AND root=?`
with `deleted=0` (case-sensitive root comparison branch). -/
def read_database (s : State) (root : String) : FilesDict :=
  pyDict ((s.filter (fun r => decide (r.deleted = false ∧ r.root = root))).map
    (fun r => (recordId r, recordAttrs r)))

/-- `fs_nodes - db_nodes` together with the snapshot attributes used by
`fsdata_for_node` for the insert batch. -/
def new_nodes (fs db : FilesDict) : FilesDict :=
  fs.filter (fun p => (alookup p.1 db).isNone)

/-- `db_nodes - fs_nodes`, the batch of the mark-deleted UPDATE. -/
def gone_nodes (fs db : FilesDict) : List FileId :=
  (db.filter (fun p => (alookup p.1 fs).isNone)).map Prod.fst

/-- `compare(conn, fs, db)` (catalog.py lines 184-238): the four statement
batches in source order — insert `fs - db`, mark `db - fs` deleted, touch the
unmodified intersection, then mark the modified identities deleted and
re-insert them with their snapshot attributes. -/
def compare (now : Nat) (fs db : FilesDict) (g : Guard) (s : State) : State :=
  let new1 := (new_nodes fs db).map (fun p => mkRecord now p.1 p.2)
  let s1 := s ++ new1
  let s2 := runBatch markDeletedRow (gone_nodes fs db) s1
  let un := updated_nodes g fs db
  let s3 := runBatch (touchRow now) un.1 s2
  let s4 := runBatch markDeletedRow un.2.1 s3
  let new4 := un.2.1.filterMap (fun id => (alookup id fs).map (fun a => mkRecord now id a))
  s4 ++ new4

/-- One whole reconciliation pass for one root, as in the `__main__` loop:
read the current records for the root, then run `compare` against them. -/
def reconcile_pass (now : Nat) (root : String) (fs : FilesDict) (g : Guard)
    (s : State) : State :=
  compare now fs (read_database s root) g s

/-! ## `read_dir` (catalog.py lines 46-77) -/

/-- Python `str.replace` for the single-character pattern used by the source
(`.replace("\\\\", "/")`): replace the character everywhere in the string. -/
def replaceChar (old new : Char) (s : String) : String :=
  String.mk (s.data.map (fun c => if c = old then new else c))

/-- Outcome of the `stat(entry.path)` call for one scanned entry. -/
inductive StatResult where
  | ok (dev ino size mtime : Int)
  | permissionError
  | notFoundError
  | osError

/-- One entry yielded by `scandir_rec`. -/
structure Entry where
  path : String
  relpath : String
  stat : StatResult

def is_signed_int_64 (num : Int) : Bool :=
  decide (-2 ^ 63 ≤ num ∧ num ≤ 2 ^ 63 - 1)

def unsigned_to_signed_int_64 (num : Int) : Int := num - 2 ^ 63

def signed_to_unsigned_int_64 (num : Int) : Int := num + 2 ^ 63

/-- The generator `it()` inside `read_dir`: stat errors and zero-identity
entries are skipped (logged), valid entries yield the signed-encoded identity
with the snapshot attributes; a failing `assert` raises and aborts the whole
call (`none`). -/
def readDirYields (root : String) : List Entry → Option (List (FileId × Attrs))
  | [] => some []
  | e :: rest =>
      match e.stat with
      | .permissionError => readDirYields root rest
      | .notFoundError => readDirYields root rest
      | .osError => readDirYields root rest
      | .ok dev ino size mtime =>
          if dev ≠ 0 ∧ ino ≠ 0 then
            let device := unsigned_to_signed_int_64 dev
            let inode := unsigned_to_signed_int_64 ino
            if is_signed_int_64 inode ∧ is_signed_int_64 device ∧
                is_signed_int_64 size ∧ is_signed_int_64 mtime then
              (readDirYields root rest).map
                (fun l => ((device, inode),
                  (root, replaceChar '\\' '/' e.relpath, size, mtime)) :: l)
            else none
          else readDirYields root rest

/-- `read_dir(path)`: normalise the root, scan the entries, and build the
snapshot dict from the yielded pairs. -/
def read_dir (path : String) (entries : List Entry) : Option FilesDict :=
  (readDirYields (replaceChar '\\' '/' path) entries).map pyDict

/-- The log channel of the `read_dir` scan, mirroring the `logger` calls of
the loop: a permission or not-found stat error is logged at warning level
(line 60), any other OS stat error at error level (line 63), and a kept-open
entry with zero raw device or inode at warning level (line 75); valid entries
log nothing, and an `AssertionError` aborts the scan so later entries produce
no log either. -/
def readDirLog : List Entry → List (String × LogLevel)
  | [] => []
  | e :: rest =>
      match e.stat with
      | .permissionError => (e.path, .warning) :: readDirLog rest
      | .notFoundError => (e.path, .warning) :: readDirLog rest
      | .osError => (e.path, .error) :: readDirLog rest
      | .ok dev ino size mtime =>
          if dev ≠ 0 ∧ ino ≠ 0 then
            if is_signed_int_64 (unsigned_to_signed_int_64 ino) ∧
                is_signed_int_64 (unsigned_to_signed_int_64 dev) ∧
                is_signed_int_64 size ∧ is_signed_int_64 mtime then
              readDirLog rest
            else []
          else (e.path, .warning) :: readDirLog rest

/-- The log record one entry contributes when it is skipped: warning for a
permission/not-found stat error or a zero raw identity, error for any other
OS stat error, nothing for a yielded entry. -/
def skipLogOf (e : Entry) : Option (String × LogLevel) :=
  match e.stat with
  | .permissionError => some (e.path, .warning)
  | .notFoundError => some (e.path, .warning)
  | .osError => some (e.path, .error)
  | .ok dev ino _ _ =>
      if dev ≠ 0 ∧ ino ≠ 0 then none else some (e.path, .warning)

/-! ## Characterisation of `updated_nodes` -/

/-- Severity at which `updated_nodes` logs a skipped identity for a given
guard outcome (`none` when the identity is not skipped). -/
def skipLevel : GuardResult → Option LogLevel
  | .notInUse => none
  | .inUse => some .info
  | .permissionError => some .warning
  | .notFoundError => some .warning
  | .osError => some .error

/-- The full path handed to `is_open_for_write`: `root + path`. -/
def fullpathOf (a : Attrs) : String := a.1 ++ a.2.1

/-- Per-pair test for the `equal` branch of `updated_nodes`. -/
def isEqualPair (db : FilesDict) (p : FileId × Attrs) : Bool :=
  match alookup p.1 db with
  | none => false
  | some b => decide (p.2 = b)

/-- Per-pair test for the `updated` branch of `updated_nodes`. -/
def isUpdatedPair (g : Guard) (db : FilesDict) (p : FileId × Attrs) : Bool :=
  match alookup p.1 db with
  | none => false
  | some b => decide (¬ p.2 = b) && decide (g (fullpathOf p.2) = .notInUse)

/-- Per-pair log record for the skip channel of `updated_nodes`. -/
def skippedPair (g : Guard) (db : FilesDict) (p : FileId × Attrs) :
    Option (FileId × LogLevel) :=
  match alookup p.1 db with
  | none => none
  | some b =>
      if p.2 = b then none
      else (skipLevel (g (fullpathOf p.2))).map (fun lv => (p.1, lv))

/-- Per-pair test for whether `updated_nodes` invokes `is_open_for_write`. -/
def guardCalledPair (db : FilesDict) (p : FileId × Attrs) : Bool :=
  match alookup p.1 db with
  | none => false
  | some b => decide (¬ p.2 = b)

/-- `updated_nodes` is the per-pair classification of the snapshot list. -/
theorem updated_nodes_eq (g : Guard) (fs db : FilesDict) :
    updated_nodes g fs db =
      ((fs.filter (isEqualPair db)).map Prod.fst,
       (fs.filter (isUpdatedPair g db)).map Prod.fst,
       fs.filterMap (skippedPair g db)) := by
  induction fs with
  | nil => rfl
  | cons p rest ih =>
      obtain ⟨pid, pa⟩ := p
      show updated_nodes g ((pid, pa) :: rest) db = _
      rw [updated_nodes, ih]
      cases hdb : alookup pid db with
      | none =>
          simp [List.filter_cons, List.filterMap_cons, isEqualPair, isUpdatedPair,
            skippedPair, hdb]
      | some b =>
          by_cases heq : pa = b
          · simp [List.filter_cons, List.filterMap_cons, isEqualPair, isUpdatedPair,
              skippedPair, hdb, heq]
          · cases hg : g (pa.1 ++ pa.2.1) <;>
              simp [List.filter_cons, List.filterMap_cons, isEqualPair, isUpdatedPair,
                skippedPair, skipLevel, hdb, heq, fullpathOf, hg]

/-- `guard_calls` is the per-pair filter of the snapshot list. -/
theorem guard_calls_eq (g : Guard) (fs db : FilesDict) :
    guard_calls db fs = (fs.filter (guardCalledPair db)).map Prod.fst := by
  induction fs with
  | nil => rfl
  | cons p rest ih =>
      obtain ⟨pid, pa⟩ := p
      rw [guard_calls, ih]
      cases hdb : alookup pid db with
      | none => simp [List.filter_cons, guardCalledPair, hdb]
      | some b =>
          by_cases heq : pa = b <;>
            simp [List.filter_cons, guardCalledPair, hdb, heq]

theorem mem_equal_iff (g : Guard) (fs db : FilesDict)
    (hnd : (akeys fs).Nodup) (id : FileId) :
    id ∈ (updated_nodes g fs db).1 ↔
      ∃ a, alookup id fs = some a ∧ alookup id db = some a := by
  rw [updated_nodes_eq]
  simp only [List.mem_map, List.mem_filter]
  constructor
  · rintro ⟨p, ⟨hp, hcl⟩, rfl⟩
    have hlk := alookup_of_mem_nodup p.1 p.2 fs hnd (by
      obtain ⟨p1, p2⟩ := p
      exact hp)
    rw [isEqualPair] at hcl
    cases hdb : alookup p.1 db with
    | none =>
        simp only [hdb] at hcl
        exact absurd hcl (by decide)
    | some b =>
        simp only [hdb] at hcl
        have hb : p.2 = b := of_decide_eq_true hcl
        subst hb
        exact ⟨p.2, hlk, rfl⟩
  · rintro ⟨a, ha, hb⟩
    refine ⟨(id, a), ⟨alookup_mem _ _ _ ha, ?_⟩, rfl⟩
    rw [isEqualPair, hb]
    simp

theorem mem_updated_iff (g : Guard) (fs db : FilesDict)
    (hnd : (akeys fs).Nodup) (id : FileId) :
    id ∈ (updated_nodes g fs db).2.1 ↔
      ∃ a b, alookup id fs = some a ∧ alookup id db = some b ∧ a ≠ b ∧
        g (fullpathOf a) = .notInUse := by
  rw [updated_nodes_eq]
  simp only [List.mem_map, List.mem_filter]
  constructor
  · rintro ⟨p, ⟨hp, hcl⟩, rfl⟩
    have hlk := alookup_of_mem_nodup p.1 p.2 fs hnd (by
      obtain ⟨p1, p2⟩ := p
      exact hp)
    rw [isUpdatedPair] at hcl
    cases hdb : alookup p.1 db with
    | none =>
        simp only [hdb] at hcl
        exact absurd hcl (by decide)
    | some b =>
        simp only [hdb, Bool.and_eq_true] at hcl
        exact ⟨p.2, b, hlk, rfl, of_decide_eq_true hcl.1, of_decide_eq_true hcl.2⟩
  · rintro ⟨a, b, ha, hb, hne, hgg⟩
    refine ⟨(id, a), ⟨alookup_mem _ _ _ ha, ?_⟩, rfl⟩
    rw [isUpdatedPair, hb]
    simp [hne, hgg]

theorem mem_skipped_iff (g : Guard) (fs db : FilesDict)
    (hnd : (akeys fs).Nodup) (id : FileId) (lv : LogLevel) :
    (id, lv) ∈ (updated_nodes g fs db).2.2 ↔
      ∃ a b, alookup id fs = some a ∧ alookup id db = some b ∧ a ≠ b ∧
        skipLevel (g (fullpathOf a)) = some lv := by
  rw [updated_nodes_eq]
  simp only [List.mem_filterMap]
  constructor
  · rintro ⟨p, hp, hcl⟩
    have hlk := alookup_of_mem_nodup p.1 p.2 fs hnd (by
      obtain ⟨p1, p2⟩ := p
      exact hp)
    rw [skippedPair] at hcl
    cases hdb : alookup p.1 db with
    | none =>
        simp only [hdb] at hcl
        exact Option.noConfusion hcl
    | some b =>
        simp only [hdb] at hcl
        by_cases heq : p.2 = b
        · rw [if_pos heq] at hcl
          exact Option.noConfusion hcl
        · rw [if_neg heq] at hcl
          cases hsl : skipLevel (g (fullpathOf p.2)) with
          | none =>
              rw [hsl] at hcl
              exact Option.noConfusion hcl
          | some lv' =>
              rw [hsl] at hcl
              have h2 : (some (p.1, lv') : Option (FileId × LogLevel)) = some (id, lv) := hcl
              injection h2 with h3
              rw [Prod.mk.injEq] at h3
              obtain ⟨hid, hlv⟩ := h3
              subst hid
              exact ⟨p.2, b, hlk, hdb, heq, by rw [hsl, hlv]⟩
  · rintro ⟨a, b, ha, hb, hne, hl⟩
    refine ⟨(id, a), alookup_mem _ _ _ ha, ?_⟩
    simp [skippedPair, hb, hne, hl]

theorem mem_guard_calls_iff (g : Guard) (fs db : FilesDict)
    (hnd : (akeys fs).Nodup) (id : FileId) :
    id ∈ guard_calls db fs ↔
      ∃ a b, alookup id fs = some a ∧ alookup id db = some b ∧ a ≠ b := by
  rw [guard_calls_eq g]
  simp only [List.mem_map, List.mem_filter]
  constructor
  · rintro ⟨p, ⟨hp, hcl⟩, rfl⟩
    have hlk := alookup_of_mem_nodup p.1 p.2 fs hnd (by
      obtain ⟨p1, p2⟩ := p
      exact hp)
    rw [guardCalledPair] at hcl
    cases hdb : alookup p.1 db with
    | none =>
        simp only [hdb] at hcl
        exact absurd hcl (by decide)
    | some b =>
        simp only [hdb] at hcl
        exact ⟨p.2, b, hlk, rfl, of_decide_eq_true hcl⟩
  · rintro ⟨a, b, ha, hb, hne⟩
    refine ⟨(id, a), ⟨alookup_mem _ _ _ ha, ?_⟩, rfl⟩
    rw [guardCalledPair, hb]
    simp [hne]

/-- Each component of `updated_nodes` lists a subset of the snapshot keys,
in snapshot order. -/
theorem equal_sublist (g : Guard) (fs db : FilesDict) :
    List.Sublist (updated_nodes g fs db).1 (akeys fs) := by
  rw [updated_nodes_eq, akeys]
  exact (List.filter_sublist fs).map Prod.fst

theorem updated_sublist (g : Guard) (fs db : FilesDict) :
    List.Sublist (updated_nodes g fs db).2.1 (akeys fs) := by
  rw [updated_nodes_eq, akeys]
  exact (List.filter_sublist fs).map Prod.fst

theorem skipped_fst_sublist (g : Guard) (fs db : FilesDict) :
    List.Sublist ((updated_nodes g fs db).2.2.map Prod.fst) (akeys fs) := by
  rw [updated_nodes_eq, akeys]
  induction fs with
  | nil => simp
  | cons p rest ih =>
      rw [List.filterMap_cons]
      cases hsk : skippedPair g db p with
      | none =>
          rw [List.map_cons]
          exact ih.cons p.1
      | some q =>
          have hq : q.1 = p.1 := by
            rw [skippedPair] at hsk
            cases hdb : alookup p.1 db with
            | none =>
                simp only [hdb] at hsk
                exact Option.noConfusion hsk
            | some b =>
                simp only [hdb] at hsk
                by_cases heq : p.2 = b
                · rw [if_pos heq] at hsk
                  exact Option.noConfusion hsk
                · rw [if_neg heq] at hsk
                  cases hsl : skipLevel (g (fullpathOf p.2)) with
                  | none =>
                      rw [hsl] at hsk
                      exact Option.noConfusion hsk
                  | some lv =>
                      rw [hsl] at hsk
                      have h2 : (some (p.1, lv) : Option (FileId × LogLevel)) = some q := hsk
                      injection h2 with h3
                      rw [← h3]
          rw [List.map_cons, List.map_cons, hq]
          exact ih.cons₂ p.1

theorem guard_calls_sublist (g : Guard) (fs db : FilesDict) :
    List.Sublist (guard_calls db fs) (akeys fs) := by
  rw [guard_calls_eq g, akeys]
  exact (List.filter_sublist fs).map Prod.fst

/-! ## Row-level effect of the UPDATE batches -/

/-- The cumulative effect of a batch on a single row. -/
def rowFold (upd : FileId → Record → Record) (ids : List FileId) (r : Record) : Record :=
  ids.foldl (fun r id => upd id r) r

theorem runBatch_eq_map (upd : FileId → Record → Record) (ids : List FileId) (s : State) :
    runBatch upd ids s = s.map (rowFold upd ids) := by
  induction ids generalizing s with
  | nil =>
      show s = List.map id s
      rw [List.map_id]
  | cons i ids ih =>
      show runBatch upd ids (s.map (upd i)) = s.map (rowFold upd (i :: ids))
      rw [ih, List.map_map]
      rfl

/-- All row fields except `end_date` and `deleted` are left alone by both
UPDATE statements. -/
def coreEq (r r' : Record) : Prop :=
  r'.begin_date = r.begin_date ∧ r'.device = r.device ∧ r'.inode = r.inode ∧
  r'.root = r.root ∧ r'.path = r.path ∧ r'.filesize = r.filesize ∧
  r'.utcmtime = r.utcmtime

theorem coreEq_refl (r : Record) : coreEq r r :=
  ⟨rfl, rfl, rfl, rfl, rfl, rfl, rfl⟩

theorem coreEq_trans {r1 r2 r3 : Record} (h1 : coreEq r1 r2) (h2 : coreEq r2 r3) :
    coreEq r1 r3 := by
  obtain ⟨a1, b1, c1, d1, e1, f1, g1⟩ := h1
  obtain ⟨a2, b2, c2, d2, e2, f2, g2⟩ := h2
  exact ⟨a2.trans a1, b2.trans b1, c2.trans c1, d2.trans d1, e2.trans e1,
    f2.trans f1, g2.trans g1⟩

theorem coreEq_recordId {r r' : Record} (h : coreEq r r') : recordId r' = recordId r := by
  rw [recordId, recordId, h.2.1, h.2.2.1]

theorem markDeletedRow_coreEq (id : FileId) (r : Record) :
    coreEq r (markDeletedRow id r) ∧ (markDeletedRow id r).end_date = r.end_date := by
  rw [markDeletedRow]
  split
  · exact ⟨⟨rfl, rfl, rfl, rfl, rfl, rfl, rfl⟩, rfl⟩
  · exact ⟨coreEq_refl r, rfl⟩

theorem touchRow_coreEq (now : Nat) (id : FileId) (r : Record) :
    coreEq r (touchRow now id r) ∧ (touchRow now id r).deleted = r.deleted := by
  rw [touchRow]
  split
  · exact ⟨⟨rfl, rfl, rfl, rfl, rfl, rfl, rfl⟩, rfl⟩
  · exact ⟨coreEq_refl r, rfl⟩

theorem markDeletedRow_deleted (id : FileId) (r : Record) :
    (markDeletedRow id r).deleted = (r.deleted || decide (recordId r = id)) := by
  rw [markDeletedRow]
  split
  · rename_i h
    obtain ⟨h1, h2, h3⟩ := h
    simp [h3, recordId, h1, h2, Prod.ext_iff]
  · rename_i h
    cases hdel : r.deleted with
    | true => simp
    | false =>
        have : ¬ recordId r = id := by
          rw [recordId, Prod.ext_iff]
          intro hc
          exact h ⟨hc.1, hc.2, hdel⟩
        simp [this]

theorem rowFold_markDeleted_coreEq (ids : List FileId) (r : Record) :
    coreEq r (rowFold markDeletedRow ids r) ∧
      (rowFold markDeletedRow ids r).end_date = r.end_date := by
  induction ids generalizing r with
  | nil => exact ⟨coreEq_refl r, rfl⟩
  | cons i ids ih =>
      show coreEq r (rowFold markDeletedRow ids (markDeletedRow i r)) ∧ _
      obtain ⟨hc1, he1⟩ := markDeletedRow_coreEq i r
      obtain ⟨hc2, he2⟩ := ih (markDeletedRow i r)
      exact ⟨coreEq_trans hc1 hc2, he2.trans he1⟩

theorem rowFold_touch_coreEq (now : Nat) (ids : List FileId) (r : Record) :
    coreEq r (rowFold (touchRow now) ids r) ∧
      (rowFold (touchRow now) ids r).deleted = r.deleted := by
  induction ids generalizing r with
  | nil => exact ⟨coreEq_refl r, rfl⟩
  | cons i ids ih =>
      show coreEq r (rowFold (touchRow now) ids (touchRow now i r)) ∧ _
      obtain ⟨hc1, he1⟩ := touchRow_coreEq now i r
      obtain ⟨hc2, he2⟩ := ih (touchRow now i r)
      exact ⟨coreEq_trans hc1 hc2, he2.trans he1⟩

theorem rowFold_markDeleted_deleted (ids : List FileId) (r : Record) :
    (rowFold markDeletedRow ids r).deleted =
      (r.deleted || decide (recordId r ∈ ids)) := by
  induction ids generalizing r with
  | nil => simp [rowFold]
  | cons i ids ih =>
      show (rowFold markDeletedRow ids (markDeletedRow i r)).deleted = _
      rw [ih, markDeletedRow_deleted,
        coreEq_recordId (markDeletedRow_coreEq i r).1]
      by_cases h1 : recordId r = i
      · simp [h1, List.mem_cons]
      · simp [h1, List.mem_cons]

/-- Per-row effect of the whole sequence of UPDATE batches of `compare`:
first the gone batch, then the touch batch, then the modified batch. -/
def rowPass (now : Nat) (gones eqs mods : List FileId) (r : Record) : Record :=
  rowFold markDeletedRow mods (rowFold (touchRow now) eqs (rowFold markDeletedRow gones r))

theorem rowPass_coreEq (now : Nat) (gones eqs mods : List FileId) (r : Record) :
    coreEq r (rowPass now gones eqs mods r) := by
  rw [rowPass]
  exact coreEq_trans (coreEq_trans (rowFold_markDeleted_coreEq gones r).1
    (rowFold_touch_coreEq now eqs _).1) (rowFold_markDeleted_coreEq mods _).1

theorem rowPass_deleted (now : Nat) (gones eqs mods : List FileId) (r : Record) :
    (rowPass now gones eqs mods r).deleted =
      (r.deleted || decide (recordId r ∈ gones) || decide (recordId r ∈ mods)) := by
  rw [rowPass, rowFold_markDeleted_deleted,
    coreEq_recordId (coreEq_trans (rowFold_markDeleted_coreEq gones r).1
      (rowFold_touch_coreEq now eqs _).1),
    (rowFold_touch_coreEq now eqs _).2, rowFold_markDeleted_deleted]

/-- `compare` is a per-row update of the old table plus the freshly inserted
rows (the step-1 inserts are never touched by the later UPDATE batches as
rows, only via their identities; here they appear inside the mapped prefix). -/
theorem compare_decomp (now : Nat) (fs db : FilesDict) (g : Guard) (s : State) :
    compare now fs db g s =
      (s ++ (new_nodes fs db).map (fun p => mkRecord now p.1 p.2)).map
        (rowPass now (gone_nodes fs db) (updated_nodes g fs db).1
          (updated_nodes g fs db).2.1) ++
      (updated_nodes g fs db).2.1.filterMap
        (fun id => (alookup id fs).map (fun a => mkRecord now id a)) := by
  rw [compare]
  rw [runBatch_eq_map, runBatch_eq_map, runBatch_eq_map, List.map_map, List.map_map]
  rfl

/-! ## Reading the current catalog back: `read_database` as a row search -/

/-- The row predicate of the `read_database` query restricted to one identity. -/
def isCurrentRow (root : String) (id : FileId) (r : Record) : Bool :=
  decide (r.deleted = false ∧ r.root = root ∧ recordId r = id)

/-- The row that `read_database` reports for an identity: the last table row
that is non-deleted, carries the queried root, and carries the identity. -/
def findCurrent (s : State) (root : String) (id : FileId) : Option Record :=
  s.reverse.find? (isCurrentRow root id)

theorem find?_congr_of_mem {α : Type} (p q : α → Bool) (l : List α)
    (h : ∀ x ∈ l, p x = q x) : l.find? p = l.find? q := by
  induction l with
  | nil => rfl
  | cons x t ih =>
      rw [List.find?_cons, List.find?_cons, h x (List.mem_cons_self x t)]
      cases hq : q x with
      | true => rfl
      | false => exact ih (fun y hy => h y (List.mem_cons_of_mem x hy))

theorem find?_eq_some_unique {α : Type} (p : α → Bool) (l : List α) (r : α)
    (hr : r ∈ l) (hp : p r = true) (huniq : ∀ x ∈ l, p x = true → x = r) :
    l.find? p = some r := by
  induction l with
  | nil => simp at hr
  | cons x t ih =>
      rw [List.find?_cons]
      cases hx : p x with
      | true => rw [huniq x (List.mem_cons_self x t) hx]
      | false =>
          rcases List.mem_cons.mp hr with h1 | h2
          · rw [h1] at hp
            rw [hp] at hx
            exact absurd hx (by decide)
          · exact ih h2 (fun y hy hpy => huniq y (List.mem_cons_of_mem x hy) hpy)

theorem find?_cons_true {α : Type} {p : α → Bool} {x : α} (l : List α)
    (h : p x = true) : (x :: l).find? p = some x := by
  rw [List.find?_cons, h]

theorem find?_cons_false {α : Type} {p : α → Bool} {x : α} (l : List α)
    (h : p x = false) : (x :: l).find? p = l.find? p := by
  rw [List.find?_cons, h]

theorem alookup_filter_map (s : List Record) (root : String) (id : FileId) :
    alookup id ((s.filter (fun r => decide (r.deleted = false ∧ r.root = root))).map
      (fun r => (recordId r, recordAttrs r))) =
    (s.find? (isCurrentRow root id)).map recordAttrs := by
  induction s with
  | nil => rfl
  | cons r t ih =>
      rw [List.filter_cons]
      by_cases h1 : r.deleted = false ∧ r.root = root
      · have hq : decide (r.deleted = false ∧ r.root = root) = true := decide_eq_true h1
        rw [if_pos hq, List.map_cons]
        by_cases h2 : recordId r = id
        · have hc : isCurrentRow root id r = true :=
            decide_eq_true ⟨h1.1, h1.2, h2⟩
          rw [find?_cons_true t hc]
          simp only [alookup]
          rw [if_pos h2]
          rfl
        · have hc : isCurrentRow root id r = false :=
            decide_eq_false (fun hcc => h2 hcc.2.2)
          rw [find?_cons_false t hc]
          simp only [alookup]
          rw [if_neg h2]
          exact ih
      · have hq : ¬ decide (r.deleted = false ∧ r.root = root) = true := by
          rw [decide_eq_true_eq]
          exact h1
        rw [if_neg hq]
        have hc : isCurrentRow root id r = false :=
          decide_eq_false (fun hcc => h1 ⟨hcc.1, hcc.2.1⟩)
        rw [find?_cons_false t hc]
        exact ih

theorem alookup_read_database (s : State) (root : String) (id : FileId) :
    alookup id (read_database s root) = (findCurrent s root id).map recordAttrs := by
  rw [read_database, alookup_pyDict, findCurrent, ← List.map_reverse,
    ← List.filter_reverse]
  exact alookup_filter_map s.reverse root id

theorem findCurrent_isSome_iff (s : State) (root : String) (id : FileId) :
    (findCurrent s root id).isSome ↔
      ∃ r ∈ s, r.deleted = false ∧ r.root = root ∧ recordId r = id := by
  rw [findCurrent, List.find?_isSome]
  constructor
  · rintro ⟨r, hr, hp⟩
    exact ⟨r, List.mem_reverse.mp hr, of_decide_eq_true hp⟩
  · rintro ⟨r, hr, hp⟩
    exact ⟨r, List.mem_reverse.mpr hr, decide_eq_true hp⟩

theorem mem_akeys_read_database (s : State) (root : String) (id : FileId) :
    id ∈ akeys (read_database s root) ↔
      ∃ r ∈ s, r.deleted = false ∧ r.root = root ∧ recordId r = id := by
  rw [← alookup_isSome_iff, alookup_read_database, Option.isSome_map',
    findCurrent_isSome_iff]

/-! ## Properties of the batch sets -/

theorem recordAttrs_rowPass (now : Nat) (gones eqs mods : List FileId) (r : Record) :
    recordAttrs (rowPass now gones eqs mods r) = recordAttrs r := by
  have h := rowPass_coreEq now gones eqs mods r
  rw [recordAttrs, recordAttrs, h.2.2.2.1, h.2.2.2.2.1, h.2.2.2.2.2.1, h.2.2.2.2.2.2]

theorem recordId_mkRecord (now : Nat) (id : FileId) (a : Attrs) :
    recordId (mkRecord now id a) = id := by
  rw [recordId, mkRecord]

theorem recordAttrs_mkRecord (now : Nat) (id : FileId) (a : Attrs) :
    recordAttrs (mkRecord now id a) = a := by
  obtain ⟨a1, a2, a3, a4⟩ := a
  rfl

theorem mem_new_nodes (fs db : FilesDict) (p : FileId × Attrs) :
    p ∈ new_nodes fs db ↔ p ∈ fs ∧ alookup p.1 db = none := by
  rw [new_nodes, List.mem_filter, Option.isNone_iff_eq_none]

theorem mem_gone_nodes (fs db : FilesDict) (id : FileId) :
    id ∈ gone_nodes fs db ↔ id ∈ akeys db ∧ alookup id fs = none := by
  rw [gone_nodes]
  simp only [List.mem_map, List.mem_filter, Option.isNone_iff_eq_none]
  constructor
  · rintro ⟨p, ⟨hp, hnone⟩, rfl⟩
    exact ⟨List.mem_map.mpr ⟨p, hp, rfl⟩, hnone⟩
  · rintro ⟨hkeys, hnone⟩
    obtain ⟨p, hp, hfst⟩ := List.mem_map.mp hkeys
    exact ⟨p, ⟨hp, by rw [hfst]; exact hnone⟩, hfst⟩

theorem isCurrentRow_rowPass_false (root : String) (id : FileId) (now : Nat)
    (gones eqs mods : List FileId) (r : Record)
    (h : id ∈ gones ∨ id ∈ mods) :
    isCurrentRow root id (rowPass now gones eqs mods r) = false := by
  apply decide_eq_false
  rintro ⟨hdel, -, hrid⟩
  rw [coreEq_recordId (rowPass_coreEq now gones eqs mods r)] at hrid
  have hd := rowPass_deleted now gones eqs mods r
  rw [hdel] at hd
  rcases h with h | h
  · have e1 : decide (recordId r ∈ gones) = true := decide_eq_true (by rw [hrid]; exact h)
    rw [e1] at hd
    simp at hd
  · have e2 : decide (recordId r ∈ mods) = true := decide_eq_true (by rw [hrid]; exact h)
    rw [e2] at hd
    simp at hd

theorem isCurrentRow_rowPass_of_not_mem (root : String) (id : FileId) (now : Nat)
    (gones eqs mods : List FileId) (r : Record)
    (hg : id ∉ gones) (hm : id ∉ mods) :
    isCurrentRow root id (rowPass now gones eqs mods r) = isCurrentRow root id r := by
  have hcore := rowPass_coreEq now gones eqs mods r
  have hd := rowPass_deleted now gones eqs mods r
  have hrid := coreEq_recordId hcore
  have hroot2 := hcore.2.2.2.1
  rw [isCurrentRow, isCurrentRow, decide_eq_decide]
  constructor
  · rintro ⟨h1, h2, h3⟩
    rw [hrid] at h3
    rw [hd] at h1
    simp only [Bool.or_eq_false_iff] at h1
    exact ⟨h1.1.1, hroot2.symm.trans h2, h3⟩
  · rintro ⟨h1, h2, h3⟩
    refine ⟨?_, hroot2.trans h2, by rw [hrid]; exact h3⟩
    rw [hd, h1]
    have e1 : decide (recordId r ∈ gones) = false :=
      decide_eq_false (fun hc => hg (h3 ▸ hc))
    have e2 : decide (recordId r ∈ mods) = false :=
      decide_eq_false (fun hc => hm (h3 ▸ hc))
    rw [e1, e2]
    rfl

/-- The identities handled by the modified-file re-insert: searching the new
rows for an identity not in the modified batch finds nothing. -/
theorem find?_new4_eq_none (now : Nat) (root : String) (fs : FilesDict)
    (mods : List FileId) (id : FileId) (h : id ∉ mods) :
    ((mods.filterMap (fun i => (alookup i fs).map (fun a => mkRecord now i a))).reverse).find?
      (isCurrentRow root id) = none := by
  rw [List.find?_eq_none]
  intro x hx hP
  rw [List.mem_reverse, List.mem_filterMap] at hx
  obtain ⟨i, hi, hxi⟩ := hx
  cases hai : alookup i fs with
  | none =>
      rw [hai] at hxi
      exact Option.noConfusion hxi
  | some a =>
      rw [hai] at hxi
      have hx2 : (some (mkRecord now i a) : Option Record) = some x := hxi
      injection hx2 with hx3
      have hrid : recordId x = id := (of_decide_eq_true hP).2.2
      rw [← hx3, recordId_mkRecord] at hrid
      exact h (hrid ▸ hi)

theorem find?_new4_eq_some (now : Nat) (root : String) (fs : FilesDict)
    (mods : List FileId) (id : FileId) (a : Attrs) (hm : id ∈ mods)
    (ha : alookup id fs = some a) (ha1 : a.1 = root) :
    ((mods.filterMap (fun i => (alookup i fs).map (fun a => mkRecord now i a))).reverse).find?
      (isCurrentRow root id) = some (mkRecord now id a) := by
  apply find?_eq_some_unique
  · rw [List.mem_reverse, List.mem_filterMap]
    refine ⟨id, hm, ?_⟩
    rw [ha]
    rfl
  · apply decide_eq_true
    exact ⟨rfl, ha1, recordId_mkRecord now id a⟩
  · intro x hx hP
    rw [List.mem_reverse, List.mem_filterMap] at hx
    obtain ⟨i, hi, hxi⟩ := hx
    cases hai : alookup i fs with
    | none =>
        rw [hai] at hxi
        exact Option.noConfusion hxi
    | some a' =>
        rw [hai] at hxi
        have hx2 : (some (mkRecord now i a') : Option Record) = some x := hxi
        injection hx2 with hx3
        have hrid : recordId x = id := (of_decide_eq_true hP).2.2
        rw [← hx3, recordId_mkRecord] at hrid
        subst hrid
        have h5 : (some a : Option Attrs) = some a' := ha.symm.trans hai
        injection h5 with h6
        rw [← hx3, ← h6]

/-- New-row search helpers for the step-1 insert batch. -/
theorem find?_new1_eq_some (now : Nat) (root : String) (fs db : FilesDict)
    (id : FileId) (a : Attrs) (hnd : (akeys fs).Nodup)
    (hfs : alookup id fs = some a) (hdbnone : alookup id db = none)
    (ha1 : a.1 = root) :
    (((new_nodes fs db).map (fun p => mkRecord now p.1 p.2)).reverse).find?
      (isCurrentRow root id) = some (mkRecord now id a) := by
  apply find?_eq_some_unique
  · rw [List.mem_reverse, List.mem_map]
    exact ⟨(id, a), (mem_new_nodes fs db (id, a)).mpr ⟨alookup_mem _ _ _ hfs, hdbnone⟩, rfl⟩
  · apply decide_eq_true
    exact ⟨rfl, ha1, recordId_mkRecord now id a⟩
  · intro x hx hP
    rw [List.mem_reverse, List.mem_map] at hx
    obtain ⟨p, hp, hxp⟩ := hx
    have hrid : recordId x = id := (of_decide_eq_true hP).2.2
    rw [← hxp, recordId_mkRecord] at hrid
    have hpfs : p ∈ fs := ((mem_new_nodes fs db p).mp hp).1
    have hlk : alookup p.1 fs = some p.2 := by
      apply alookup_of_mem_nodup p.1 p.2 fs hnd
      obtain ⟨p1, p2⟩ := p
      exact hpfs
    rw [hrid, hfs] at hlk
    injection hlk with hlk2
    rw [← hxp, hrid, ← hlk2]

theorem find?_new1_eq_none (now : Nat) (root : String) (fs db : FilesDict)
    (id : FileId) (h : ∀ p ∈ new_nodes fs db, ¬ p.1 = id) :
    (((new_nodes fs db).map (fun p => mkRecord now p.1 p.2)).reverse).find?
      (isCurrentRow root id) = none := by
  rw [List.find?_eq_none]
  intro x hx hP
  rw [List.mem_reverse, List.mem_map] at hx
  obtain ⟨p, hp, hxp⟩ := hx
  have hrid : recordId x = id := (of_decide_eq_true hP).2.2
  rw [← hxp, recordId_mkRecord] at hrid
  exact h p hp hrid

/-- Core of the idempotence property: after one pass on a snapshot whose
attribute roots all equal the reconciled root, with a guard that always
reports not-in-use, the current catalog for that root reads back exactly as
the snapshot. -/
theorem alookup_read_database_pass (now : Nat) (root : String) (fs : FilesDict)
    (g : Guard) (s : State)
    (hnd : (akeys fs).Nodup)
    (hroot : ∀ p ∈ fs, (p.2).1 = root)
    (hguard : ∀ pth, g pth = GuardResult.notInUse) (id : FileId) :
    alookup id (read_database (reconcile_pass now root fs g s) root) =
      alookup id fs := by
  rw [alookup_read_database, reconcile_pass, compare_decomp, findCurrent,
    List.reverse_append, List.find?_append, ← List.map_reverse,
    List.reverse_append, List.map_append, List.find?_append,
    List.find?_map, List.find?_map]
  simp only [Function.comp_def]
  have hmapmap : ∀ o : Option Record,
      ((o.map (rowPass now (gone_nodes fs (read_database s root))
          (updated_nodes g fs (read_database s root)).1
          (updated_nodes g fs (read_database s root)).2.1)).map recordAttrs) =
        o.map recordAttrs := by
    intro o
    cases o with
    | none => rfl
    | some r =>
        show some (recordAttrs (rowPass now _ _ _ r)) = some (recordAttrs r)
        rw [recordAttrs_rowPass]
  cases hfs : alookup id fs with
  | some a =>
      have hpmem : (id, a) ∈ fs := alookup_mem _ _ _ hfs
      have ha1 : a.1 = root := hroot (id, a) hpmem
      have hnotgone : id ∉ gone_nodes fs (read_database s root) := by
        intro hc
        rw [mem_gone_nodes] at hc
        rw [hc.2] at hfs
        exact Option.noConfusion hfs
      cases hdb : alookup id (read_database s root) with
      | none =>
          have hnotmod : id ∉ (updated_nodes g fs (read_database s root)).2.1 := by
            intro hc
            obtain ⟨a', b', -, hb', -⟩ :=
              (mem_updated_iff g fs (read_database s root) hnd id).mp hc
            rw [hdb] at hb'
            exact Option.noConfusion hb'
          rw [find?_new4_eq_none now root fs _ id hnotmod]
          rw [find?_congr_of_mem _ _ _
            (fun x _ => isCurrentRow_rowPass_of_not_mem root id now (gone_nodes fs (read_database s root)) ((updated_nodes g fs (read_database s root)).1) ((updated_nodes g fs (read_database s root)).2.1) x hnotgone hnotmod)]
          rw [find?_new1_eq_some now root fs (read_database s root) id a hnd hfs hdb ha1]
          show some (recordAttrs (rowPass now (gone_nodes fs (read_database s root))
            (updated_nodes g fs (read_database s root)).1
            (updated_nodes g fs (read_database s root)).2.1 (mkRecord now id a))) = some a
          rw [recordAttrs_rowPass, recordAttrs_mkRecord]
      | some b =>
          have hnew1 : ∀ p ∈ new_nodes fs (read_database s root), ¬ p.1 = id := by
            intro p hp hpid
            have := ((mem_new_nodes fs (read_database s root) p).mp hp).2
            rw [hpid, hdb] at this
            exact Option.noConfusion this
          by_cases hab : a = b
          · have hnotmod : id ∉ (updated_nodes g fs (read_database s root)).2.1 := by
              intro hc
              obtain ⟨a', b', ha', hb', hne, -⟩ :=
                (mem_updated_iff g fs (read_database s root) hnd id).mp hc
              rw [hfs] at ha'
              injection ha' with ha2
              rw [hdb] at hb'
              injection hb' with hb2
              rw [← ha2, ← hb2] at hne
              exact hne hab
            rw [find?_new4_eq_none now root fs _ id hnotmod]
            rw [find?_congr_of_mem _ _ _
              (fun x _ => isCurrentRow_rowPass_of_not_mem root id now (gone_nodes fs (read_database s root)) ((updated_nodes g fs (read_database s root)).1) ((updated_nodes g fs (read_database s root)).2.1) x hnotgone hnotmod)]
            rw [find?_new1_eq_none now root fs (read_database s root) id hnew1]
            rw [find?_congr_of_mem _ _ _
              (fun x _ => isCurrentRow_rowPass_of_not_mem root id now (gone_nodes fs (read_database s root)) ((updated_nodes g fs (read_database s root)).1) ((updated_nodes g fs (read_database s root)).2.1) x hnotgone hnotmod)]
            have hs : alookup id (read_database s root) =
                (findCurrent s root id).map recordAttrs := alookup_read_database s root id
            rw [hdb] at hs
            show ((findCurrent s root id).map (rowPass now (gone_nodes fs (read_database s root))
              (updated_nodes g fs (read_database s root)).1
              (updated_nodes g fs (read_database s root)).2.1)).map recordAttrs = some a
            rw [hmapmap, ← hs, hab]
          · have hmod : id ∈ (updated_nodes g fs (read_database s root)).2.1 :=
              (mem_updated_iff g fs (read_database s root) hnd id).mpr
                ⟨a, b, hfs, hdb, hab, hguard _⟩
            rw [find?_new4_eq_some now root fs _ id a hmod hfs ha1]
            show some (recordAttrs (mkRecord now id a)) = some a
            rw [recordAttrs_mkRecord]
  | none =>
      have hnotmod : id ∉ (updated_nodes g fs (read_database s root)).2.1 := by
        intro hc
        obtain ⟨a', b', ha', -, -⟩ :=
          (mem_updated_iff g fs (read_database s root) hnd id).mp hc
        rw [hfs] at ha'
        exact Option.noConfusion ha'
      have hnew1 : ∀ p ∈ new_nodes fs (read_database s root), ¬ p.1 = id := by
        intro p hp hpid
        have hpfs : p ∈ fs := ((mem_new_nodes fs (read_database s root) p).mp hp).1
        have : p.1 ∈ akeys fs := List.mem_map.mpr ⟨p, hpfs, rfl⟩
        rw [hpid, mem_akeys_iff_alookup] at this
        obtain ⟨v, hv⟩ := this
        rw [hfs] at hv
        exact Option.noConfusion hv
      rw [find?_new4_eq_none now root fs _ id hnotmod]
      by_cases hgone : id ∈ gone_nodes fs (read_database s root)
      · have hfalse : ∀ x : Record,
            isCurrentRow root id (rowPass now (gone_nodes fs (read_database s root))
              (updated_nodes g fs (read_database s root)).1
              (updated_nodes g fs (read_database s root)).2.1 x) = false :=
          fun x => isCurrentRow_rowPass_false root id now _ _ _ x (Or.inl hgone)
        rw [List.find?_eq_none.mpr (fun x _ h => by rw [hfalse x] at h; exact absurd h (by decide)),
          List.find?_eq_none.mpr (fun x _ h => by rw [hfalse x] at h; exact absurd h (by decide))]
        rfl
      · have hdbnone : alookup id (read_database s root) = none := by
          rw [alookup_eq_none_iff]
          intro hk
          exact hgone ((mem_gone_nodes fs (read_database s root) id).mpr ⟨hk, hfs⟩)
        rw [find?_congr_of_mem _ _ _
          (fun x _ => isCurrentRow_rowPass_of_not_mem root id now (gone_nodes fs (read_database s root)) ((updated_nodes g fs (read_database s root)).1) ((updated_nodes g fs (read_database s root)).2.1) x hgone hnotmod)]
        rw [find?_new1_eq_none now root fs (read_database s root) id hnew1]
        rw [find?_congr_of_mem _ _ _
          (fun x _ => isCurrentRow_rowPass_of_not_mem root id now (gone_nodes fs (read_database s root)) ((updated_nodes g fs (read_database s root)).1) ((updated_nodes g fs (read_database s root)).2.1) x hgone hnotmod)]
        have hs : alookup id (read_database s root) =
            (findCurrent s root id).map recordAttrs := alookup_read_database s root id
        rw [hdbnone] at hs
        have hfc : findCurrent s root id = none := by
          cases hfc2 : findCurrent s root id with
          | none => rfl
          | some r =>
              rw [hfc2] at hs
              exact Option.noConfusion hs
        rw [findCurrent] at hfc
        rw [hfc]
        rfl

/-! ## Positional view of `compare`: old rows are updated in place -/

theorem compare_getElem?_old_row (now : Nat) (fs db : FilesDict) (g : Guard)
    (s : State) (i : Nat) (hi : i < s.length) :
    (compare now fs db g s)[i]? =
      some (rowPass now (gone_nodes fs db) (updated_nodes g fs db).1
        (updated_nodes g fs db).2.1 (s.get ⟨i, hi⟩)) := by
  rw [compare_decomp, List.getElem?_append]
  have hlen1 : i < ((s ++ (new_nodes fs db).map fun p => mkRecord now p.1 p.2).map
      (rowPass now (gone_nodes fs db) (updated_nodes g fs db).1
        (updated_nodes g fs db).2.1)).length := by
    rw [List.length_map, List.length_append]
    exact Nat.lt_of_lt_of_le hi (Nat.le_add_right _ _)
  rw [if_pos hlen1, List.getElem?_map, List.getElem?_append]
  rw [if_pos hi, List.getElem?_eq_getElem hi]
  rfl

/-- Rows already marked deleted are fixed by every batch. -/
theorem rowPass_of_deleted (now : Nat) (gones eqs mods : List FileId) (r : Record)
    (h : r.deleted = true) : rowPass now gones eqs mods r = r := by
  have hmark : ∀ (ids : List FileId) (r' : Record), r'.deleted = true →
      rowFold markDeletedRow ids r' = r' := by
    intro ids
    induction ids with
    | nil => intro r' _; rfl
    | cons i ids ih =>
        intro r' h'
        show rowFold markDeletedRow ids (markDeletedRow i r') = r'
        have : markDeletedRow i r' = r' := by
          rw [markDeletedRow, if_neg]
          rintro ⟨-, -, hdel⟩
          rw [h'] at hdel
          exact Bool.noConfusion hdel
        rw [this]
        exact ih r' h'
  have htouch : ∀ (ids : List FileId) (r' : Record), r'.deleted = true →
      rowFold (touchRow now) ids r' = r' := by
    intro ids
    induction ids with
    | nil => intro r' _; rfl
    | cons i ids ih =>
        intro r' h'
        show rowFold (touchRow now) ids (touchRow now i r') = r'
        have : touchRow now i r' = r' := by
          rw [touchRow, if_neg]
          rintro ⟨-, -, hdel⟩
          rw [h'] at hdel
          exact Bool.noConfusion hdel
        rw [this]
        exact ih r' h'
  rw [rowPass, hmark gones r h, htouch eqs r h, hmark mods r h]

/-- Rows whose identity is not targeted by any batch are fixed. -/
theorem rowPass_of_not_targeted (now : Nat) (gones eqs mods : List FileId)
    (r : Record) (h1 : recordId r ∉ gones) (h2 : recordId r ∉ eqs)
    (h3 : recordId r ∉ mods) : rowPass now gones eqs mods r = r := by
  have hmark : ∀ (ids : List FileId) (r' : Record), recordId r' ∉ ids →
      rowFold markDeletedRow ids r' = r' := by
    intro ids
    induction ids with
    | nil => intro r' _; rfl
    | cons i ids ih =>
        intro r' h'
        show rowFold markDeletedRow ids (markDeletedRow i r') = r'
        have hne : markDeletedRow i r' = r' := by
          rw [markDeletedRow, if_neg]
          rintro ⟨ha, hb, -⟩
          have hri : recordId r' = i := by
            rw [recordId, ha, hb]
          apply h'
          rw [hri]
          exact List.mem_cons_self i ids
        rw [hne]
        exact ih r' (fun hmem => h' (List.mem_cons_of_mem i hmem))
  have htouch : ∀ (ids : List FileId) (r' : Record), recordId r' ∉ ids →
      rowFold (touchRow now) ids r' = r' := by
    intro ids
    induction ids with
    | nil => intro r' _; rfl
    | cons i ids ih =>
        intro r' h'
        show rowFold (touchRow now) ids (touchRow now i r') = r'
        have hne : touchRow now i r' = r' := by
          rw [touchRow, if_neg]
          rintro ⟨ha, hb, -⟩
          have hri : recordId r' = i := by
            rw [recordId, ha, hb]
          apply h'
          rw [hri]
          exact List.mem_cons_self i ids
        rw [hne]
        exact ih r' (fun hmem => h' (List.mem_cons_of_mem i hmem))
  rw [rowPass, hmark gones r h1, htouch eqs r h2, hmark mods r h3]

/-- After a pass (guard always not-in-use, snapshot rooted at the reconciled
root), re-running the pass computation classifies every snapshot identity as
unmodified: no inserts, no deletions, no modified files, no skips. -/
theorem pass_rereads_as_touch (now : Nat) (root : String) (fs : FilesDict)
    (g g2 : Guard) (s : State)
    (hnd : (akeys fs).Nodup)
    (hroot : ∀ p ∈ fs, (p.2).1 = root)
    (hguard : ∀ pth, g pth = GuardResult.notInUse) :
    new_nodes fs (read_database (reconcile_pass now root fs g s) root) = [] ∧
    gone_nodes fs (read_database (reconcile_pass now root fs g s) root) = [] ∧
    updated_nodes g2 fs (read_database (reconcile_pass now root fs g s) root) =
      (akeys fs, [], []) := by
  have hlk := alookup_read_database_pass now root fs g s hnd hroot hguard
  refine ⟨?_, ?_, ?_⟩
  · rw [new_nodes, List.filter_eq_nil_iff]
    intro p hp hnone
    rw [Option.isNone_iff_eq_none, hlk p.1, alookup_eq_none_iff] at hnone
    exact hnone (List.mem_map.mpr ⟨p, hp, rfl⟩)
  · rw [gone_nodes]
    have hfil : ((read_database (reconcile_pass now root fs g s) root).filter
        (fun p => (alookup p.1 fs).isNone)) = [] := by
      rw [List.filter_eq_nil_iff]
      intro p hp hnone
      rw [Option.isNone_iff_eq_none] at hnone
      have hk : p.1 ∈ akeys (read_database (reconcile_pass now root fs g s) root) :=
        List.mem_map.mpr ⟨p, hp, rfl⟩
      rw [← alookup_isSome_iff, hlk p.1, hnone] at hk
      exact absurd hk (by decide)
    rw [hfil]
    rfl
  · rw [updated_nodes_eq]
    have h1 : fs.filter (isEqualPair (read_database (reconcile_pass now root fs g s) root)) = fs := by
      rw [List.filter_eq_self]
      intro p hp
      have hlkp : alookup p.1 fs = some p.2 := by
        apply alookup_of_mem_nodup p.1 p.2 fs hnd
        obtain ⟨p1, p2⟩ := p
        exact hp
      rw [isEqualPair, hlk p.1, hlkp]
      simp
    have h2 : fs.filter (isUpdatedPair g2 (read_database (reconcile_pass now root fs g s) root)) = [] := by
      rw [List.filter_eq_nil_iff]
      intro p hp hbad
      have hlkp : alookup p.1 fs = some p.2 := by
        apply alookup_of_mem_nodup p.1 p.2 fs hnd
        obtain ⟨p1, p2⟩ := p
        exact hp
      rw [isUpdatedPair, hlk p.1, hlkp] at hbad
      simp at hbad
    have h3 : fs.filterMap (skippedPair g2 (read_database (reconcile_pass now root fs g s) root)) = [] := by
      rw [List.filterMap_eq_nil_iff]
      intro p hp
      have hlkp : alookup p.1 fs = some p.2 := by
        apply alookup_of_mem_nodup p.1 p.2 fs hnd
        obtain ⟨p1, p2⟩ := p
        exact hp
      rw [skippedPair, hlk p.1, hlkp]
      simp
    rw [h1, h2, h3]
    rfl

/-! ## Counting current records per (root, identity): invariant I1 -/

/-- Number of non-deleted rows for a given root and identity. -/
def currentCount (st : State) (root : String) (id : FileId) : Nat :=
  (st.filter (isCurrentRow root id)).length

/-- Identities of all non-deleted rows, with multiplicity (used to state the
root-free version of invariant I1 decidably). -/
def currentIds (st : State) : List FileId :=
  (st.filter (fun r => decide (r.deleted = false))).map recordId

theorem currentCount_append (s1 s2 : State) (root : String) (id : FileId) :
    currentCount (s1 ++ s2) root id = currentCount s1 root id + currentCount s2 root id := by
  rw [currentCount, currentCount, currentCount, List.filter_append, List.length_append]

theorem currentCount_map_rowPass (now : Nat) (gones eqs mods : List FileId)
    (l : State) (root : String) (id : FileId) :
    currentCount (l.map (rowPass now gones eqs mods)) root id =
      if id ∈ gones ∨ id ∈ mods then 0 else currentCount l root id := by
  by_cases h : id ∈ gones ∨ id ∈ mods
  · rw [if_pos h, currentCount]
    have hnil : (l.map (rowPass now gones eqs mods)).filter (isCurrentRow root id) = [] := by
      rw [List.filter_eq_nil_iff]
      intro x hx hP
      rw [List.mem_map] at hx
      obtain ⟨y, hy, hxy⟩ := hx
      rw [← hxy, isCurrentRow_rowPass_false root id now gones eqs mods y h] at hP
      exact absurd hP (by decide)
    rw [hnil]
    rfl
  · rw [if_neg h, currentCount, currentCount]
    induction l with
    | nil => rfl
    | cons x t ih =>
        rw [List.map_cons, List.filter_cons, List.filter_cons,
          isCurrentRow_rowPass_of_not_mem root id now gones eqs mods x
            (fun hc => h (Or.inl hc)) (fun hc => h (Or.inr hc))]
        cases hP : isCurrentRow root id x with
        | true => rw [if_pos rfl, if_pos rfl, List.length_cons, List.length_cons, ih]
        | false =>
            rw [if_neg (show ¬ (false = true) by decide),
              if_neg (show ¬ (false = true) by decide)]
            exact ih

/-- Multiplicity of an identity in a key list. -/
def idCount (id : FileId) (ids : List FileId) : Nat :=
  (ids.filter (fun i => decide (i = id))).length

theorem idCount_le_one_of_nodup (id : FileId) (ids : List FileId) (h : ids.Nodup) :
    idCount id ids ≤ 1 := by
  induction ids with
  | nil => exact Nat.zero_le 1
  | cons i rest ih =>
      rw [List.nodup_cons] at h
      rw [idCount, List.filter_cons]
      by_cases hid : i = id
      · rw [if_pos (decide_eq_true hid), List.length_cons]
        have hz : (rest.filter (fun j => decide (j = id))).length = 0 := by
          have hnil : rest.filter (fun j => decide (j = id)) = [] := by
            rw [List.filter_eq_nil_iff]
            intro j hj hdec
            have hji : j = i := (of_decide_eq_true hdec).trans hid.symm
            exact h.1 (hji ▸ hj)
          rw [hnil]
          rfl
        rw [hz]
      · rw [if_neg (fun hc => hid (of_decide_eq_true hc))]
        exact ih h.2

theorem currentCount_mkRecords_le (now : Nat) (root : String) (id : FileId)
    (L : List (FileId × Attrs)) :
    currentCount (L.map (fun p => mkRecord now p.1 p.2)) root id ≤ idCount id (akeys L) := by
  induction L with
  | nil => exact Nat.le_refl 0
  | cons p t ih =>
      rw [List.map_cons, currentCount, List.filter_cons, akeys, List.map_cons,
        idCount, List.filter_cons]
      cases hP : isCurrentRow root id (mkRecord now p.1 p.2) with
      | false =>
          rw [if_neg (show ¬ (false = true) by decide)]
          by_cases hid : p.1 = id
          · rw [if_pos (decide_eq_true hid), List.length_cons]
            exact Nat.le_trans ih (Nat.le_succ _)
          · rw [if_neg (fun hc => hid (of_decide_eq_true hc))]
            exact ih
      | true =>
          have hid : p.1 = id := by
            have h2 := (of_decide_eq_true hP).2.2
            rw [recordId_mkRecord] at h2
            exact h2
          rw [if_pos rfl, if_pos (decide_eq_true hid), List.length_cons, List.length_cons]
          exact Nat.succ_le_succ ih

theorem currentCount_mkRecords_zero (now : Nat) (root : String) (id : FileId)
    (L : List (FileId × Attrs)) (h : ∀ p ∈ L, ¬ (p.1 = id ∧ p.2.1 = root)) :
    currentCount (L.map (fun p => mkRecord now p.1 p.2)) root id = 0 := by
  rw [currentCount]
  have hnil : (L.map (fun p => mkRecord now p.1 p.2)).filter (isCurrentRow root id) = [] := by
    rw [List.filter_eq_nil_iff]
    intro x hx hP
    rw [List.mem_map] at hx
    obtain ⟨p, hp, hxp⟩ := hx
    obtain ⟨-, hro, hrid⟩ := of_decide_eq_true hP
    rw [← hxp, recordId_mkRecord] at hrid
    have hro2 : p.2.1 = root := by
      rw [← hxp] at hro
      exact hro
    exact h p hp ⟨hrid, hro2⟩
  rw [hnil]
  rfl

theorem currentCount_new4_le (now : Nat) (root : String) (fs : FilesDict)
    (mods : List FileId) (id : FileId) :
    currentCount (mods.filterMap (fun i => (alookup i fs).map (fun a => mkRecord now i a)))
      root id ≤ idCount id mods := by
  induction mods with
  | nil => exact Nat.le_refl 0
  | cons i rest ih =>
      rw [List.filterMap_cons, idCount, List.filter_cons]
      cases hai : alookup i fs with
      | none =>
          show currentCount (rest.filterMap
            (fun i => (alookup i fs).map (fun a => mkRecord now i a))) root id ≤ _
          by_cases hid : i = id
          · rw [if_pos (decide_eq_true hid), List.length_cons]
            exact Nat.le_trans ih (Nat.le_succ _)
          · rw [if_neg (fun hc => hid (of_decide_eq_true hc))]
            exact ih
      | some a =>
          show currentCount (mkRecord now i a :: rest.filterMap
            (fun i => (alookup i fs).map (fun a => mkRecord now i a))) root id ≤ _
          rw [currentCount, List.filter_cons]
          cases hP : isCurrentRow root id (mkRecord now i a) with
          | false =>
              rw [if_neg (show ¬ (false = true) by decide)]
              by_cases hid : i = id
              · rw [if_pos (decide_eq_true hid), List.length_cons]
                exact Nat.le_trans ih (Nat.le_succ _)
              · rw [if_neg (fun hc => hid (of_decide_eq_true hc))]
                exact ih
          | true =>
              have hid : i = id := by
                have h2 := (of_decide_eq_true hP).2.2
                rw [recordId_mkRecord] at h2
                exact h2
              rw [if_pos rfl, if_pos (decide_eq_true hid), List.length_cons, List.length_cons]
              exact Nat.succ_le_succ ih

theorem currentCount_new4_zero (now : Nat) (root : String) (fs : FilesDict)
    (mods : List FileId) (id : FileId)
    (h : ∀ i ∈ mods, ∀ a, alookup i fs = some a → ¬ (i = id ∧ a.1 = root)) :
    currentCount (mods.filterMap (fun i => (alookup i fs).map (fun a => mkRecord now i a)))
      root id = 0 := by
  rw [currentCount]
  have hnil : (mods.filterMap (fun i => (alookup i fs).map (fun a => mkRecord now i a))).filter
      (isCurrentRow root id) = [] := by
    rw [List.filter_eq_nil_iff]
    intro x hx hP
    rw [List.mem_filterMap] at hx
    obtain ⟨i, hi, hxi⟩ := hx
    cases hai : alookup i fs with
    | none =>
        rw [hai] at hxi
        exact Option.noConfusion hxi
    | some a =>
        rw [hai] at hxi
        have hx2 : (some (mkRecord now i a) : Option Record) = some x := hxi
        injection hx2 with hx3
        obtain ⟨-, hro, hrid⟩ := of_decide_eq_true hP
        rw [← hx3, recordId_mkRecord] at hrid
        have hro2 : a.1 = root := by
          rw [← hx3] at hro
          exact hro
        exact h i hi a hai ⟨hrid, hro2⟩
  rw [hnil]
  rfl

/-- Amended invariant preservation: per (identity, root) the pass keeps the
number of current records at most one, provided the snapshot attributes are
rooted at the reconciled root. -/
theorem pass_preserves_current_unique (now : Nat) (root : String) (fs : FilesDict)
    (g : Guard) (s : State)
    (hnd : (akeys fs).Nodup) (hroot : ∀ p ∈ fs, (p.2).1 = root)
    (hinv : ∀ (r' : String) (id : FileId), currentCount s r' id ≤ 1)
    (r' : String) (id : FileId) :
    currentCount (reconcile_pass now root fs g s) r' id ≤ 1 := by
  rw [reconcile_pass, compare_decomp, currentCount_append, currentCount_map_rowPass]
  by_cases hgm : id ∈ gone_nodes fs (read_database s root) ∨
      id ∈ (updated_nodes g fs (read_database s root)).2.1
  · rw [if_pos hgm, Nat.zero_add]
    have hnodmods : (updated_nodes g fs (read_database s root)).2.1.Nodup :=
      hnd.sublist (updated_sublist g fs (read_database s root))
    exact Nat.le_trans (currentCount_new4_le now r' fs _ id)
      (idCount_le_one_of_nodup id _ hnodmods)
  · rw [if_neg hgm, currentCount_append]
    have h2 : id ∉ (updated_nodes g fs (read_database s root)).2.1 :=
      fun hc => hgm (Or.inr hc)
    have hz4 : currentCount ((updated_nodes g fs (read_database s root)).2.1.filterMap
        (fun i => (alookup i fs).map (fun a => mkRecord now i a))) r' id = 0 := by
      apply currentCount_new4_zero
      intro i hi a _ hcontra
      exact h2 (hcontra.1 ▸ hi)
    rw [hz4, Nat.add_zero]
    by_cases hr : r' = root
    · subst hr
      by_cases hdbk : id ∈ akeys (read_database s r')
      · have hz1 : currentCount ((new_nodes fs (read_database s r')).map
            (fun p => mkRecord now p.1 p.2)) r' id = 0 := by
          apply currentCount_mkRecords_zero
          intro p hp hcontra
          have hnone := ((mem_new_nodes fs (read_database s r') p).mp hp).2
          rw [hcontra.1] at hnone
          rw [← alookup_isSome_iff, hnone] at hdbk
          exact absurd hdbk (by decide)
        rw [hz1, Nat.add_zero]
        exact hinv r' id
      · have hz0 : currentCount s r' id = 0 := by
          rw [currentCount]
          have hnil : s.filter (isCurrentRow r' id) = [] := by
            rw [List.filter_eq_nil_iff]
            intro r hr hP
            obtain ⟨ha, hb, hc⟩ := of_decide_eq_true hP
            exact hdbk ((mem_akeys_read_database s r' id).mpr ⟨r, hr, ha, hb, hc⟩)
          rw [hnil]
          rfl
        rw [hz0, Nat.zero_add]
        have hnodnew : (akeys (new_nodes fs (read_database s r'))).Nodup := by
          apply hnd.sublist
          rw [new_nodes, akeys, akeys]
          exact (List.filter_sublist fs).map Prod.fst
        exact Nat.le_trans (currentCount_mkRecords_le now r' id _)
          (idCount_le_one_of_nodup id _ hnodnew)
    · have hz1 : currentCount ((new_nodes fs (read_database s root)).map
          (fun p => mkRecord now p.1 p.2)) r' id = 0 := by
        apply currentCount_mkRecords_zero
        intro p hp hcontra
        have hpfs : p ∈ fs := ((mem_new_nodes fs (read_database s root) p).mp hp).1
        exact hr (hcontra.2 ▸ (hroot p hpfs).symm ▸ rfl)
      rw [hz1, Nat.add_zero]
      exact hinv r' id

/-! ## Characterisation of `read_dir` -/

/-- The pair that one scanned entry contributes to the snapshot, if any:
stat errors and zero raw identities contribute nothing. -/
def goodPair (root : String) (e : Entry) : Option (FileId × Attrs) :=
  match e.stat with
  | .ok dev ino size mtime =>
      if dev ≠ 0 ∧ ino ≠ 0 then
        some ((unsigned_to_signed_int_64 dev, unsigned_to_signed_int_64 ino),
          (root, replaceChar '\\' '/' e.relpath, size, mtime))
      else none
  | _ => none

/-- Ranges the operating system guarantees for `stat` results: `st_dev` and
`st_ino` are unsigned 64-bit, `st_size` and `st_mtime_ns` signed 64-bit. -/
def entryOk (e : Entry) : Bool :=
  match e.stat with
  | .ok dev ino size mtime =>
      decide (0 ≤ dev ∧ dev ≤ 2 ^ 64 - 1 ∧ 0 ≤ ino ∧ ino ≤ 2 ^ 64 - 1) &&
        is_signed_int_64 size && is_signed_int_64 mtime
  | _ => true

theorem readDirYields_eq (root : String) (entries : List Entry)
    (h : ∀ e ∈ entries, entryOk e = true) :
    readDirYields root entries = some (entries.filterMap (goodPair root)) := by
  induction entries with
  | nil => rfl
  | cons e rest ih =>
      have hok := h e (List.mem_cons_self e rest)
      have hrest := ih (fun e' he' => h e' (List.mem_cons_of_mem e he'))
      obtain ⟨pth, rel, st⟩ := e
      cases st with
      | permissionError =>
          show readDirYields root rest = _
          rw [hrest, List.filterMap_cons]
          rfl
      | notFoundError =>
          show readDirYields root rest = _
          rw [hrest, List.filterMap_cons]
          rfl
      | osError =>
          show readDirYields root rest = _
          rw [hrest, List.filterMap_cons]
          rfl
      | ok dev ino size mtime =>
          simp only [entryOk, Bool.and_eq_true] at hok
          obtain ⟨⟨hdec, hs⟩, hm⟩ := hok
          obtain ⟨hd0, hd1, hi0, hi1⟩ := of_decide_eq_true hdec
          have hpow : (2 : Int) ^ 64 - 1 = 18446744073709551615 := by norm_num
          have hpow63 : (2 : Int) ^ 63 = 9223372036854775808 := by norm_num
          by_cases hz : dev ≠ 0 ∧ ino ≠ 0
          · have hdev : is_signed_int_64 (unsigned_to_signed_int_64 dev) = true := by
              rw [is_signed_int_64, unsigned_to_signed_int_64]
              apply decide_eq_true
              rw [hpow, hpow63] at *
              constructor <;> omega
            have hino : is_signed_int_64 (unsigned_to_signed_int_64 ino) = true := by
              rw [is_signed_int_64, unsigned_to_signed_int_64]
              apply decide_eq_true
              rw [hpow, hpow63] at *
              constructor <;> omega
            show (if dev ≠ 0 ∧ ino ≠ 0 then
                (if is_signed_int_64 (unsigned_to_signed_int_64 ino) ∧
                    is_signed_int_64 (unsigned_to_signed_int_64 dev) ∧
                    is_signed_int_64 size ∧ is_signed_int_64 mtime then
                  (readDirYields root rest).map
                    (fun l => ((unsigned_to_signed_int_64 dev, unsigned_to_signed_int_64 ino),
                      (root, replaceChar '\\' '/' rel, size, mtime)) :: l)
                else none)
              else readDirYields root rest) = _
            rw [if_pos hz, if_pos ⟨hino, hdev, hs, hm⟩, hrest, List.filterMap_cons]
            have hgp : goodPair root ⟨pth, rel, StatResult.ok dev ino size mtime⟩ =
                some ((unsigned_to_signed_int_64 dev, unsigned_to_signed_int_64 ino),
                  (root, replaceChar '\\' '/' rel, size, mtime)) := by
              show (if dev ≠ 0 ∧ ino ≠ 0 then
                  some ((unsigned_to_signed_int_64 dev, unsigned_to_signed_int_64 ino),
                    (root, replaceChar '\\' '/' rel, size, mtime))
                else none) = _
              rw [if_pos hz]
            rw [hgp]
            rfl
          · show (if dev ≠ 0 ∧ ino ≠ 0 then _ else readDirYields root rest) = _
            rw [if_neg hz, hrest, List.filterMap_cons]
            have hgp : goodPair root ⟨pth, rel, StatResult.ok dev ino size mtime⟩ = none := by
              show (if dev ≠ 0 ∧ ino ≠ 0 then
                  some ((unsigned_to_signed_int_64 dev, unsigned_to_signed_int_64 ino),
                    (root, replaceChar '\\' '/' rel, size, mtime))
                else none) = none
              rw [if_neg hz]
            rw [hgp]

theorem readDirLog_eq (entries : List Entry)
    (h : ∀ e ∈ entries, entryOk e = true) :
    readDirLog entries = entries.filterMap skipLogOf := by
  induction entries with
  | nil => rfl
  | cons e rest ih =>
      have hok := h e (List.mem_cons_self e rest)
      have hrest := ih (fun e' he' => h e' (List.mem_cons_of_mem e he'))
      obtain ⟨pth, rel, st⟩ := e
      cases st with
      | permissionError =>
          show (pth, LogLevel.warning) :: readDirLog rest = _
          rw [hrest, List.filterMap_cons]
          rfl
      | notFoundError =>
          show (pth, LogLevel.warning) :: readDirLog rest = _
          rw [hrest, List.filterMap_cons]
          rfl
      | osError =>
          show (pth, LogLevel.error) :: readDirLog rest = _
          rw [hrest, List.filterMap_cons]
          rfl
      | ok dev ino size mtime =>
          simp only [entryOk, Bool.and_eq_true] at hok
          obtain ⟨⟨hdec, hs⟩, hm⟩ := hok
          obtain ⟨hd0, hd1, hi0, hi1⟩ := of_decide_eq_true hdec
          have hpow : (2 : Int) ^ 64 - 1 = 18446744073709551615 := by norm_num
          have hpow63 : (2 : Int) ^ 63 = 9223372036854775808 := by norm_num
          by_cases hz : dev ≠ 0 ∧ ino ≠ 0
          · have hdev : is_signed_int_64 (unsigned_to_signed_int_64 dev) = true := by
              rw [is_signed_int_64, unsigned_to_signed_int_64]
              apply decide_eq_true
              rw [hpow, hpow63] at *
              constructor <;> omega
            have hino : is_signed_int_64 (unsigned_to_signed_int_64 ino) = true := by
              rw [is_signed_int_64, unsigned_to_signed_int_64]
              apply decide_eq_true
              rw [hpow, hpow63] at *
              constructor <;> omega
            show (if dev ≠ 0 ∧ ino ≠ 0 then
                (if is_signed_int_64 (unsigned_to_signed_int_64 ino) ∧
                    is_signed_int_64 (unsigned_to_signed_int_64 dev) ∧
                    is_signed_int_64 size ∧ is_signed_int_64 mtime then
                  readDirLog rest
                else [])
              else (pth, LogLevel.warning) :: readDirLog rest) = _
            rw [if_pos hz, if_pos ⟨hino, hdev, hs, hm⟩, hrest, List.filterMap_cons]
            have hsl : skipLogOf ⟨pth, rel, StatResult.ok dev ino size mtime⟩ = none := by
              show (if dev ≠ 0 ∧ ino ≠ 0 then none
                else some (pth, LogLevel.warning)) = none
              rw [if_pos hz]
            rw [hsl]
          · show (if dev ≠ 0 ∧ ino ≠ 0 then
                (if is_signed_int_64 (unsigned_to_signed_int_64 ino) ∧
                    is_signed_int_64 (unsigned_to_signed_int_64 dev) ∧
                    is_signed_int_64 size ∧ is_signed_int_64 mtime then
                  readDirLog rest
                else [])
              else (pth, LogLevel.warning) :: readDirLog rest) = _
            rw [if_neg hz, hrest, List.filterMap_cons]
            have hsl : skipLogOf ⟨pth, rel, StatResult.ok dev ino size mtime⟩ =
                some (pth, LogLevel.warning) := by
              show (if dev ≠ 0 ∧ ino ≠ 0 then none
                else some (pth, LogLevel.warning)) = some (pth, LogLevel.warning)
              rw [if_neg hz]
            rw [hsl]

theorem read_dir_eq (path : String) (entries : List Entry)
    (h : ∀ e ∈ entries, entryOk e = true) :
    read_dir path entries =
      some (pyDict (entries.filterMap (goodPair (replaceChar '\\' '/' path)))) := by
  rw [read_dir, readDirYields_eq _ _ h]
  rfl

/-- Every key of the snapshot comes from nonzero raw stat identifiers: in the
signed encoding it differs from the encoding of zero in both components. -/
theorem akeys_goodPairs_nonzero (root : String) (entries : List Entry)
    (id : FileId) (hmem : id ∈ akeys (entries.filterMap (goodPair root))) :
    id.1 ≠ unsigned_to_signed_int_64 0 ∧ id.2 ≠ unsigned_to_signed_int_64 0 := by
  obtain ⟨p, hp, hpid⟩ := List.mem_map.mp hmem
  obtain ⟨e, -, hge⟩ := List.mem_filterMap.mp hp
  obtain ⟨pth, rel, st⟩ := e
  cases st with
  | permissionError => exact Option.noConfusion hge
  | notFoundError => exact Option.noConfusion hge
  | osError => exact Option.noConfusion hge
  | ok dev ino size mtime =>
      have hge2 : (if dev ≠ 0 ∧ ino ≠ 0 then
          some (((unsigned_to_signed_int_64 dev, unsigned_to_signed_int_64 ino),
            (root, replaceChar '\\' '/' rel, size, mtime)) : FileId × Attrs)
        else none) = some p := hge
      by_cases hz : dev ≠ 0 ∧ ino ≠ 0
      · rw [if_pos hz] at hge2
        injection hge2 with hh
        rw [← hpid, ← hh]
        constructor
        · show unsigned_to_signed_int_64 dev ≠ unsigned_to_signed_int_64 0
          rw [unsigned_to_signed_int_64, unsigned_to_signed_int_64]
          intro hc
          exact hz.1 (by omega)
        · show unsigned_to_signed_int_64 ino ≠ unsigned_to_signed_int_64 0
          rw [unsigned_to_signed_int_64, unsigned_to_signed_int_64]
          intro hc
          exact hz.2 (by omega)
      · rw [if_neg hz] at hge2
        exact Option.noConfusion hge2

theorem mem_akeys_new_nodes (fs db : FilesDict) (hnd : (akeys fs).Nodup) (id : FileId) :
    id ∈ akeys (new_nodes fs db) ↔
      (∃ a, alookup id fs = some a) ∧ alookup id db = none := by
  constructor
  · intro hmem
    obtain ⟨p, hp, hpid⟩ := List.mem_map.mp hmem
    obtain ⟨hpfs, hnone⟩ := (mem_new_nodes fs db p).mp hp
    have hlk : alookup p.1 fs = some p.2 := by
      apply alookup_of_mem_nodup p.1 p.2 fs hnd
      obtain ⟨p1, p2⟩ := p
      exact hpfs
    rw [← hpid]
    exact ⟨⟨p.2, hlk⟩, hnone⟩
  · rintro ⟨⟨a, ha⟩, hnone⟩
    apply List.mem_map.mpr
    refine ⟨(id, a), (mem_new_nodes fs db (id, a)).mpr ⟨alookup_mem _ _ _ ha, hnone⟩, rfl⟩

theorem skipLevel_isSome_iff (gr : GuardResult) :
    (∃ lv, skipLevel gr = some lv) ↔ gr ≠ GuardResult.notInUse := by
  cases gr <;> simp [skipLevel]

/-! ## Partition of one pass -/

theorem mem_skipped_fst_iff (g : Guard) (fs db : FilesDict) (id : FileId) :
    id ∈ (updated_nodes g fs db).2.2.map Prod.fst ↔
      ∃ lv, (id, lv) ∈ (updated_nodes g fs db).2.2 := by
  rw [List.mem_map]
  constructor
  · rintro ⟨⟨x1, x2⟩, hx, hx1⟩
    rw [show ((x1, x2) : FileId × LogLevel).1 = x1 from rfl] at hx1
    subst hx1
    exact ⟨x2, hx⟩
  · rintro ⟨lv, hlv⟩
    exact ⟨(id, lv), hlv, rfl⟩

theorem mem_skipped_fst_spec (g : Guard) (fs db : FilesDict)
    (hnd : (akeys fs).Nodup) (id : FileId) :
    id ∈ (updated_nodes g fs db).2.2.map Prod.fst ↔
      ∃ a b, alookup id fs = some a ∧ alookup id db = some b ∧ a ≠ b ∧
        g (fullpathOf a) ≠ GuardResult.notInUse := by
  rw [mem_skipped_fst_iff]
  constructor
  · rintro ⟨lv, hlv⟩
    obtain ⟨a, b, ha, hb, hne, hl⟩ := (mem_skipped_iff g fs db hnd id lv).mp hlv
    refine ⟨a, b, ha, hb, hne, ?_⟩
    intro heq
    rw [heq] at hl
    exact Option.noConfusion hl
  · rintro ⟨a, b, ha, hb, hne, hne2⟩
    obtain ⟨lv, hlv⟩ := (skipLevel_isSome_iff (g (fullpathOf a))).mpr hne2
    exact ⟨lv, (mem_skipped_iff g fs db hnd id lv).mpr ⟨a, b, ha, hb, hne, hlv⟩⟩

/-- Coverage: every identity of the snapshot or catalog falls into one of the
five categories of a pass. -/
theorem partition_cover (g : Guard) (fs db : FilesDict)
    (hnd : (akeys fs).Nodup) (id : FileId)
    (hmem : id ∈ akeys fs ∨ id ∈ akeys db) :
    id ∈ akeys (new_nodes fs db) ∨ id ∈ gone_nodes fs db ∨
      id ∈ (updated_nodes g fs db).1 ∨ id ∈ (updated_nodes g fs db).2.1 ∨
      id ∈ (updated_nodes g fs db).2.2.map Prod.fst := by
  cases hfs : alookup id fs with
  | some a =>
      cases hdb : alookup id db with
      | none =>
          exact Or.inl ((mem_akeys_new_nodes fs db hnd id).mpr ⟨⟨a, hfs⟩, hdb⟩)
      | some b =>
          by_cases hab : a = b
          · refine Or.inr (Or.inr (Or.inl ?_))
            exact (mem_equal_iff g fs db hnd id).mpr ⟨a, hfs, by rw [hdb, hab]⟩
          · by_cases hg : g (fullpathOf a) = GuardResult.notInUse
            · exact Or.inr (Or.inr (Or.inr (Or.inl
                ((mem_updated_iff g fs db hnd id).mpr ⟨a, b, hfs, hdb, hab, hg⟩))))
            · exact Or.inr (Or.inr (Or.inr (Or.inr
                ((mem_skipped_fst_spec g fs db hnd id).mpr ⟨a, b, hfs, hdb, hab, hg⟩))))
  | none =>
      cases hdb : alookup id db with
      | some b =>
          refine Or.inr (Or.inl ?_)
          exact (mem_gone_nodes fs db id).mpr
            ⟨(mem_akeys_iff_alookup id db).mpr ⟨b, hdb⟩, hfs⟩
      | none =>
          exfalso
          rcases hmem with hk | hk
          · obtain ⟨v, hv⟩ := (mem_akeys_iff_alookup id fs).mp hk
            rw [hfs] at hv
            exact Option.noConfusion hv
          · obtain ⟨v, hv⟩ := (mem_akeys_iff_alookup id db).mp hk
            rw [hdb] at hv
            exact Option.noConfusion hv

/-- Soundness: every identity of a category comes from the snapshot or catalog. -/
theorem partition_subset (g : Guard) (fs db : FilesDict)
    (hnd : (akeys fs).Nodup) (id : FileId)
    (hcat : id ∈ akeys (new_nodes fs db) ∨ id ∈ gone_nodes fs db ∨
      id ∈ (updated_nodes g fs db).1 ∨ id ∈ (updated_nodes g fs db).2.1 ∨
      id ∈ (updated_nodes g fs db).2.2.map Prod.fst) :
    id ∈ akeys fs ∨ id ∈ akeys db := by
  rcases hcat with h | h | h | h | h
  · obtain ⟨⟨a, ha⟩, -⟩ := (mem_akeys_new_nodes fs db hnd id).mp h
    exact Or.inl ((mem_akeys_iff_alookup id fs).mpr ⟨a, ha⟩)
  · exact Or.inr ((mem_gone_nodes fs db id).mp h).1
  · obtain ⟨a, ha, -⟩ := (mem_equal_iff g fs db hnd id).mp h
    exact Or.inl ((mem_akeys_iff_alookup id fs).mpr ⟨a, ha⟩)
  · obtain ⟨a, b, ha, -⟩ := (mem_updated_iff g fs db hnd id).mp h
    exact Or.inl ((mem_akeys_iff_alookup id fs).mpr ⟨a, ha⟩)
  · obtain ⟨a, b, ha, -⟩ := (mem_skipped_fst_spec g fs db hnd id).mp h
    exact Or.inl ((mem_akeys_iff_alookup id fs).mpr ⟨a, ha⟩)

/-- Pairwise disjointness of the five categories for a given identity. -/
theorem partition_disjoint (g : Guard) (fs db : FilesDict)
    (hnd : (akeys fs).Nodup) (id : FileId) :
    ¬ (id ∈ akeys (new_nodes fs db) ∧ id ∈ gone_nodes fs db) ∧
    ¬ (id ∈ akeys (new_nodes fs db) ∧ id ∈ (updated_nodes g fs db).1) ∧
    ¬ (id ∈ akeys (new_nodes fs db) ∧ id ∈ (updated_nodes g fs db).2.1) ∧
    ¬ (id ∈ akeys (new_nodes fs db) ∧ id ∈ (updated_nodes g fs db).2.2.map Prod.fst) ∧
    ¬ (id ∈ gone_nodes fs db ∧ id ∈ (updated_nodes g fs db).1) ∧
    ¬ (id ∈ gone_nodes fs db ∧ id ∈ (updated_nodes g fs db).2.1) ∧
    ¬ (id ∈ gone_nodes fs db ∧ id ∈ (updated_nodes g fs db).2.2.map Prod.fst) ∧
    ¬ (id ∈ (updated_nodes g fs db).1 ∧ id ∈ (updated_nodes g fs db).2.1) ∧
    ¬ (id ∈ (updated_nodes g fs db).1 ∧ id ∈ (updated_nodes g fs db).2.2.map Prod.fst) ∧
    ¬ (id ∈ (updated_nodes g fs db).2.1 ∧ id ∈ (updated_nodes g fs db).2.2.map Prod.fst) := by
  refine ⟨?_, ?_, ?_, ?_, ?_, ?_, ?_, ?_, ?_, ?_⟩
  · rintro ⟨h1, h2⟩
    obtain ⟨⟨a, ha⟩, -⟩ := (mem_akeys_new_nodes fs db hnd id).mp h1
    obtain ⟨-, hnone⟩ := (mem_gone_nodes fs db id).mp h2
    rw [ha] at hnone
    exact Option.noConfusion hnone
  · rintro ⟨h1, h2⟩
    obtain ⟨-, hnone⟩ := (mem_akeys_new_nodes fs db hnd id).mp h1
    obtain ⟨a, -, hb⟩ := (mem_equal_iff g fs db hnd id).mp h2
    rw [hnone] at hb
    exact Option.noConfusion hb
  · rintro ⟨h1, h2⟩
    obtain ⟨-, hnone⟩ := (mem_akeys_new_nodes fs db hnd id).mp h1
    obtain ⟨a, b, -, hb, -⟩ := (mem_updated_iff g fs db hnd id).mp h2
    rw [hnone] at hb
    exact Option.noConfusion hb
  · rintro ⟨h1, h2⟩
    obtain ⟨-, hnone⟩ := (mem_akeys_new_nodes fs db hnd id).mp h1
    obtain ⟨a, b, -, hb, -⟩ := (mem_skipped_fst_spec g fs db hnd id).mp h2
    rw [hnone] at hb
    exact Option.noConfusion hb
  · rintro ⟨h1, h2⟩
    obtain ⟨-, hnone⟩ := (mem_gone_nodes fs db id).mp h1
    obtain ⟨a, ha, -⟩ := (mem_equal_iff g fs db hnd id).mp h2
    rw [hnone] at ha
    exact Option.noConfusion ha
  · rintro ⟨h1, h2⟩
    obtain ⟨-, hnone⟩ := (mem_gone_nodes fs db id).mp h1
    obtain ⟨a, b, ha, -⟩ := (mem_updated_iff g fs db hnd id).mp h2
    rw [hnone] at ha
    exact Option.noConfusion ha
  · rintro ⟨h1, h2⟩
    obtain ⟨-, hnone⟩ := (mem_gone_nodes fs db id).mp h1
    obtain ⟨a, b, ha, -⟩ := (mem_skipped_fst_spec g fs db hnd id).mp h2
    rw [hnone] at ha
    exact Option.noConfusion ha
  · rintro ⟨h1, h2⟩
    obtain ⟨a, ha, hb⟩ := (mem_equal_iff g fs db hnd id).mp h1
    obtain ⟨a', b', ha', hb', hne, -⟩ := (mem_updated_iff g fs db hnd id).mp h2
    rw [ha] at ha'
    injection ha' with he1
    rw [hb] at hb'
    injection hb' with he2
    exact hne (he1 ▸ he2 ▸ rfl)
  · rintro ⟨h1, h2⟩
    obtain ⟨a, ha, hb⟩ := (mem_equal_iff g fs db hnd id).mp h1
    obtain ⟨a', b', ha', hb', hne, -⟩ := (mem_skipped_fst_spec g fs db hnd id).mp h2
    rw [ha] at ha'
    injection ha' with he1
    rw [hb] at hb'
    injection hb' with he2
    exact hne (he1 ▸ he2 ▸ rfl)
  · rintro ⟨h1, h2⟩
    obtain ⟨a, b, ha, hb, hne, hg⟩ := (mem_updated_iff g fs db hnd id).mp h1
    obtain ⟨a', b', ha', hb', hne', hg'⟩ := (mem_skipped_fst_spec g fs db hnd id).mp h2
    rw [ha] at ha'
    injection ha' with he1
    rw [← he1] at hg'
    exact hg' hg

/-! ## Concrete fixtures used by witnesses and counterexamples -/

def exGuard : Guard := fun _ => GuardResult.notInUse

def exGuard2 : Guard := fun _ => GuardResult.notInUse

def exGuardInUse : Guard := fun _ => GuardResult.inUse

def exFs : FilesDict := [((1, 1), ("A/", "a.txt", 20, 100))]

def exDb : FilesDict := [((1, 1), ("A/", "a.txt", 10, 100)), ((2, 2), ("A/", "b.txt", 5, 50))]

def exState : State := [mkRecord 1 (1, 1) ("A/", "a.txt", 10, 100)]

def exStateB : State :=
  [mkRecord 1 (1, 1) ("B/", "x", 1, 1), mkRecord 1 (1, 1) ("A/", "y", 2, 2)]

def exStateB2 : State := [mkRecord 1 (1, 1) ("B/", "x", 1, 1)]

def exFsB : FilesDict := [((1, 1), ("A/", "x", 1, 1))]

def exStateC : State := [mkRecord 1 (3, 3) ("B/", "x", 1, 1)]

def exEntries : List Entry :=
  [⟨"p/x", "r1", StatResult.ok 5 7 1 1⟩, ⟨"p/y", "r2", StatResult.ok 5 7 2 2⟩,
   ⟨"p/z", "r3", StatResult.permissionError⟩, ⟨"p/w", "r4", StatResult.ok 0 5 1 1⟩]

/-! ## The claims -/

/-- Claim C1: one reconciliation pass covers exactly the identities of
snapshot ∪ current catalog; each such identity is assigned to exactly one of
the categories Insert (`fs - db`), MarkDeleted (`db - fs`), Touch (equal
attributes), modified (differing attributes, guard says not in use), or
Skipped (guard says in use or fails), and the categories are pairwise
disjoint per identity. -/
theorem claim_C1_partition_exact (g : Guard) (fs db : FilesDict)
    (hnd : (akeys fs).Nodup) (id : FileId) :
    ((id ∈ akeys fs ∨ id ∈ akeys db) ↔
      (id ∈ akeys (new_nodes fs db) ∨ id ∈ gone_nodes fs db ∨
        id ∈ (updated_nodes g fs db).1 ∨ id ∈ (updated_nodes g fs db).2.1 ∨
        id ∈ (updated_nodes g fs db).2.2.map Prod.fst)) ∧
    ¬ (id ∈ akeys (new_nodes fs db) ∧ id ∈ gone_nodes fs db) ∧
    ¬ (id ∈ akeys (new_nodes fs db) ∧ id ∈ (updated_nodes g fs db).1) ∧
    ¬ (id ∈ akeys (new_nodes fs db) ∧ id ∈ (updated_nodes g fs db).2.1) ∧
    ¬ (id ∈ akeys (new_nodes fs db) ∧ id ∈ (updated_nodes g fs db).2.2.map Prod.fst) ∧
    ¬ (id ∈ gone_nodes fs db ∧ id ∈ (updated_nodes g fs db).1) ∧
    ¬ (id ∈ gone_nodes fs db ∧ id ∈ (updated_nodes g fs db).2.1) ∧
    ¬ (id ∈ gone_nodes fs db ∧ id ∈ (updated_nodes g fs db).2.2.map Prod.fst) ∧
    ¬ (id ∈ (updated_nodes g fs db).1 ∧ id ∈ (updated_nodes g fs db).2.1) ∧
    ¬ (id ∈ (updated_nodes g fs db).1 ∧ id ∈ (updated_nodes g fs db).2.2.map Prod.fst) ∧
    ¬ (id ∈ (updated_nodes g fs db).2.1 ∧ id ∈ (updated_nodes g fs db).2.2.map Prod.fst) :=
  ⟨⟨partition_cover g fs db hnd id, partition_subset g fs db hnd id⟩,
    partition_disjoint g fs db hnd id⟩

/-- Witness for C1 at a concrete snapshot, catalog and identity. -/
theorem claim_C1_partition_exact_witness :
    (akeys exFs).Nodup ∧
    ((((1, 1) ∈ akeys exFs ∨ (1, 1) ∈ akeys exDb) ↔
      ((1, 1) ∈ akeys (new_nodes exFs exDb) ∨ (1, 1) ∈ gone_nodes exFs exDb ∨
        (1, 1) ∈ (updated_nodes exGuard exFs exDb).1 ∨ (1, 1) ∈ (updated_nodes exGuard exFs exDb).2.1 ∨
        (1, 1) ∈ (updated_nodes exGuard exFs exDb).2.2.map Prod.fst)) ∧
    ¬ ((1, 1) ∈ akeys (new_nodes exFs exDb) ∧ (1, 1) ∈ gone_nodes exFs exDb) ∧
    ¬ ((1, 1) ∈ akeys (new_nodes exFs exDb) ∧ (1, 1) ∈ (updated_nodes exGuard exFs exDb).1) ∧
    ¬ ((1, 1) ∈ akeys (new_nodes exFs exDb) ∧ (1, 1) ∈ (updated_nodes exGuard exFs exDb).2.1) ∧
    ¬ ((1, 1) ∈ akeys (new_nodes exFs exDb) ∧ (1, 1) ∈ (updated_nodes exGuard exFs exDb).2.2.map Prod.fst) ∧
    ¬ ((1, 1) ∈ gone_nodes exFs exDb ∧ (1, 1) ∈ (updated_nodes exGuard exFs exDb).1) ∧
    ¬ ((1, 1) ∈ gone_nodes exFs exDb ∧ (1, 1) ∈ (updated_nodes exGuard exFs exDb).2.1) ∧
    ¬ ((1, 1) ∈ gone_nodes exFs exDb ∧ (1, 1) ∈ (updated_nodes exGuard exFs exDb).2.2.map Prod.fst) ∧
    ¬ ((1, 1) ∈ (updated_nodes exGuard exFs exDb).1 ∧ (1, 1) ∈ (updated_nodes exGuard exFs exDb).2.1) ∧
    ¬ ((1, 1) ∈ (updated_nodes exGuard exFs exDb).1 ∧ (1, 1) ∈ (updated_nodes exGuard exFs exDb).2.2.map Prod.fst) ∧
    ¬ ((1, 1) ∈ (updated_nodes exGuard exFs exDb).2.1 ∧ (1, 1) ∈ (updated_nodes exGuard exFs exDb).2.2.map Prod.fst)) :=
  ⟨by decide, claim_C1_partition_exact exGuard exFs exDb (by decide) (1, 1)⟩

/-- Claim C2 (idempotence): with no file in use and an error-free guard,
running one pass and then recomputing the classification of the same snapshot
against the catalog produced by the pass yields zero Insert operations, zero
MarkDeleted operations, no modified files and no skips — every snapshot
identity is classified as unmodified (Touch). -/
theorem claim_C2_idempotence (now : Nat) (root : String) (fs : FilesDict)
    (g g2 : Guard) (s : State)
    (hnd : (akeys fs).Nodup)
    (hroot : ∀ p ∈ fs, (p.2).1 = root)
    (hguard : ∀ pth, g pth = GuardResult.notInUse) :
    new_nodes fs (read_database (reconcile_pass now root fs g s) root) = [] ∧
    gone_nodes fs (read_database (reconcile_pass now root fs g s) root) = [] ∧
    updated_nodes g2 fs (read_database (reconcile_pass now root fs g s) root) =
      (akeys fs, [], []) :=
  pass_rereads_as_touch now root fs g g2 s hnd hroot hguard

/-- Witness for C2: a pass that modifies one file, then a second
classification against the produced catalog. -/
theorem claim_C2_idempotence_witness :
    ((akeys exFs).Nodup ∧ (∀ p ∈ exFs, (p.2).1 = "A/") ∧
      (∀ pth, exGuard pth = GuardResult.notInUse)) ∧
    (new_nodes exFs (read_database (reconcile_pass 5 "A/" exFs exGuard exState) "A/") = [] ∧
     gone_nodes exFs (read_database (reconcile_pass 5 "A/" exFs exGuard exState) "A/") = [] ∧
     updated_nodes exGuard2 exFs
       (read_database (reconcile_pass 5 "A/" exFs exGuard exState) "A/") =
         (akeys exFs, [], [])) :=
  ⟨⟨by decide, by decide, fun _ => rfl⟩,
   claim_C2_idempotence 5 "A/" exFs exGuard exGuard2 exState (by decide) (by decide)
     (fun _ => rfl)⟩

/-- Claim C3, counterexample to the global reading: a catalog state in which
every identity has at most one non-deleted record (its only record belongs to
root "B/"), after a pass for root "A/" whose snapshot carries the same
identity, ends with two non-deleted records for that identity — the INSERT
statement does not see the other root's current record. -/
theorem claim_C3_counterexample :
    (currentIds exStateB2).Nodup ∧
    ¬ (currentIds (reconcile_pass 5 "A/" exFsB exGuard exStateB2)).Nodup := by
  constructor
  · decide
  · decide

/-- Claim C3 (amended): per (identity, root) the invariant holds — if every
(identity, root) pair has at most one non-deleted record before the pass and
the snapshot attributes carry the reconciled root, then after the pass every
(identity, root) pair again has at most one non-deleted record. -/
theorem claim_C3_invariant_preserved (now : Nat) (root : String) (fs : FilesDict)
    (g : Guard) (s : State)
    (hnd : (akeys fs).Nodup) (hroot : ∀ p ∈ fs, (p.2).1 = root)
    (hinv : ∀ (r' : String) (id : FileId), currentCount s r' id ≤ 1)
    (r' : String) (id : FileId) :
    currentCount (reconcile_pass now root fs g s) r' id ≤ 1 :=
  pass_preserves_current_unique now root fs g s hnd hroot hinv r' id

/-- Witness for the amended C3 at a concrete modified file. -/
theorem claim_C3_invariant_preserved_witness :
    ((akeys exFs).Nodup ∧ (∀ p ∈ exFs, (p.2).1 = "A/") ∧
      (∀ (r' : String) (id : FileId), currentCount exState r' id ≤ 1)) ∧
    currentCount (reconcile_pass 5 "A/" exFs exGuard exState) "A/" (1, 1) ≤ 1 :=
  ⟨⟨by decide, by decide,
    fun _ _ => Nat.le_trans (List.length_filter_le _ _) (by decide)⟩,
   claim_C3_invariant_preserved 5 "A/" exFs exGuard exState (by decide) (by decide)
     (fun _ _ => Nat.le_trans (List.length_filter_le _ _) (by decide)) "A/" (1, 1)⟩

/-- Claim C4: for an identity present in both snapshot and current catalog
with differing attribute tuples, when the guard reports not-in-use the pass
emits exactly one MarkDeleted and exactly one Insert for it: the identity
appears exactly once in the modified batch (which drives both statements),
every existing row with that identity is marked deleted, and a new
non-deleted row with the snapshot attributes and `begin_date = now` is
appended — later than any older `begin_date` when the clock advanced. -/
theorem claim_C4_modified_pair (now : Nat) (root : String) (fs : FilesDict)
    (g : Guard) (s : State) (id : FileId) (a b : Attrs)
    (hnd : (akeys fs).Nodup)
    (hfs : alookup id fs = some a)
    (hdb : alookup id (read_database s root) = some b)
    (hab : a ≠ b)
    (hg : g (fullpathOf a) = GuardResult.notInUse) :
    idCount id (updated_nodes g fs (read_database s root)).2.1 = 1 ∧
    (∀ i (hi : i < s.length), recordId (s.get ⟨i, hi⟩) = id →
      ∃ r', (reconcile_pass now root fs g s)[i]? = some r' ∧ r'.deleted = true) ∧
    mkRecord now id a ∈ reconcile_pass now root fs g s ∧
    recordAttrs (mkRecord now id a) = a ∧
    (mkRecord now id a).deleted = false ∧
    (∀ r ∈ s, recordId r = id → r.begin_date < now →
      r.begin_date < (mkRecord now id a).begin_date) := by
  have hmod : id ∈ (updated_nodes g fs (read_database s root)).2.1 :=
    (mem_updated_iff g fs (read_database s root) hnd id).mpr ⟨a, b, hfs, hdb, hab, hg⟩
  have hnodmods : (updated_nodes g fs (read_database s root)).2.1.Nodup :=
    hnd.sublist (updated_sublist g fs (read_database s root))
  refine ⟨?_, ?_, ?_, recordAttrs_mkRecord now id a, rfl, ?_⟩
  · apply Nat.le_antisymm (idCount_le_one_of_nodup id _ hnodmods)
    have hmemf : id ∈ (updated_nodes g fs (read_database s root)).2.1.filter
        (fun i => decide (i = id)) :=
      List.mem_filter.mpr ⟨hmod, decide_eq_true rfl⟩
    exact List.length_pos.mpr (List.ne_nil_of_mem hmemf)
  · intro i hi hrid
    rw [reconcile_pass, compare_getElem?_old_row now fs (read_database s root) g s i hi]
    refine ⟨_, rfl, ?_⟩
    rw [rowPass_deleted, hrid]
    rw [decide_eq_true hmod]
    rw [Bool.or_true]
  · rw [reconcile_pass, compare_decomp]
    apply List.mem_append.mpr
    refine Or.inr (List.mem_filterMap.mpr ⟨id, hmod, ?_⟩)
    rw [hfs]
    rfl
  · intro r _ _ hlt
    exact hlt

/-- Witness for C4: one file whose size changed on disk. -/
theorem claim_C4_modified_pair_witness :
    ((akeys exFs).Nodup ∧
     alookup (1, 1) exFs = some ("A/", "a.txt", 20, 100) ∧
     alookup (1, 1) (read_database exState "A/") = some ("A/", "a.txt", 10, 100) ∧
     (("A/", "a.txt", 20, 100) : Attrs) ≠ ("A/", "a.txt", 10, 100) ∧
     exGuard (fullpathOf ("A/", "a.txt", 20, 100)) = GuardResult.notInUse) ∧
    (idCount (1, 1) (updated_nodes exGuard exFs (read_database exState "A/")).2.1 = 1 ∧
     (∀ i (hi : i < exState.length), recordId (exState.get ⟨i, hi⟩) = (1, 1) →
       ∃ r', (reconcile_pass 5 "A/" exFs exGuard exState)[i]? = some r' ∧
         r'.deleted = true) ∧
     mkRecord 5 (1, 1) ("A/", "a.txt", 20, 100) ∈
       reconcile_pass 5 "A/" exFs exGuard exState ∧
     recordAttrs (mkRecord 5 (1, 1) ("A/", "a.txt", 20, 100)) = ("A/", "a.txt", 20, 100) ∧
     (mkRecord 5 (1, 1) ("A/", "a.txt", 20, 100)).deleted = false ∧
     (∀ r ∈ exState, recordId r = (1, 1) → r.begin_date < 5 →
       r.begin_date < (mkRecord 5 (1, 1) ("A/", "a.txt", 20, 100)).begin_date)) :=
  ⟨⟨by decide, by decide, by decide, by decide, rfl⟩,
   claim_C4_modified_pair 5 "A/" exFs exGuard exState (1, 1)
     ("A/", "a.txt", 20, 100) ("A/", "a.txt", 10, 100)
     (by decide) (by decide) (by decide) (by decide) rfl⟩

/-- Claim C5: a differing intersection identity whose guard reports in-use or
raises is emitted in no batch: not inserted, not marked deleted, not touched,
not treated as modified; it is logged on the skip channel at the severity
determined by the guard outcome (in-use at info, permission/not-found at
warning, other OS errors at error level), and every other identity of the
pass is still classified into one of the five categories — the pass does not
abort. -/
theorem claim_C5_skip_logged (g : Guard) (fs db : FilesDict) (id : FileId)
    (a b : Attrs)
    (hnd : (akeys fs).Nodup)
    (hfs : alookup id fs = some a) (hdb : alookup id db = some b)
    (hab : a ≠ b) (hg : g (fullpathOf a) ≠ GuardResult.notInUse) :
    id ∉ akeys (new_nodes fs db) ∧
    id ∉ gone_nodes fs db ∧
    id ∉ (updated_nodes g fs db).1 ∧
    id ∉ (updated_nodes g fs db).2.1 ∧
    (∃ lv, skipLevel (g (fullpathOf a)) = some lv ∧
      (id, lv) ∈ (updated_nodes g fs db).2.2) ∧
    skipLevel GuardResult.inUse = some LogLevel.info ∧
    skipLevel GuardResult.permissionError = some LogLevel.warning ∧
    skipLevel GuardResult.notFoundError = some LogLevel.warning ∧
    skipLevel GuardResult.osError = some LogLevel.error ∧
    (∀ id', (id' ∈ akeys fs ∨ id' ∈ akeys db) →
      id' ∈ akeys (new_nodes fs db) ∨ id' ∈ gone_nodes fs db ∨
      id' ∈ (updated_nodes g fs db).1 ∨ id' ∈ (updated_nodes g fs db).2.1 ∨
      id' ∈ (updated_nodes g fs db).2.2.map Prod.fst) := by
  refine ⟨?_, ?_, ?_, ?_, ?_, rfl, rfl, rfl, rfl,
    fun id' hmem => partition_cover g fs db hnd id' hmem⟩
  · intro hc
    obtain ⟨-, hnone⟩ := (mem_akeys_new_nodes fs db hnd id).mp hc
    rw [hdb] at hnone
    exact Option.noConfusion hnone
  · intro hc
    obtain ⟨-, hnone⟩ := (mem_gone_nodes fs db id).mp hc
    rw [hfs] at hnone
    exact Option.noConfusion hnone
  · intro hc
    obtain ⟨a', ha', hb'⟩ := (mem_equal_iff g fs db hnd id).mp hc
    rw [hfs] at ha'
    injection ha' with he1
    rw [hdb] at hb'
    injection hb' with he2
    exact hab (he1 ▸ he2 ▸ rfl)
  · intro hc
    obtain ⟨a', b', ha', -, -, hgg⟩ := (mem_updated_iff g fs db hnd id).mp hc
    rw [hfs] at ha'
    injection ha' with he1
    rw [← he1] at hgg
    exact hg hgg
  · obtain ⟨lv, hlv⟩ := (skipLevel_isSome_iff (g (fullpathOf a))).mpr hg
    exact ⟨lv, hlv, (mem_skipped_iff g fs db hnd id lv).mpr ⟨a, b, hfs, hdb, hab, hlv⟩⟩

/-- Witness for C5: the modified file is reported in use. -/
theorem claim_C5_skip_logged_witness :
    ((akeys exFs).Nodup ∧
     alookup (1, 1) exFs = some ("A/", "a.txt", 20, 100) ∧
     alookup (1, 1) exDb = some ("A/", "a.txt", 10, 100) ∧
     (("A/", "a.txt", 20, 100) : Attrs) ≠ ("A/", "a.txt", 10, 100) ∧
     exGuardInUse (fullpathOf ("A/", "a.txt", 20, 100)) ≠ GuardResult.notInUse) ∧
    ((1, 1) ∉ akeys (new_nodes exFs exDb) ∧
     (1, 1) ∉ gone_nodes exFs exDb ∧
     (1, 1) ∉ (updated_nodes exGuardInUse exFs exDb).1 ∧
     (1, 1) ∉ (updated_nodes exGuardInUse exFs exDb).2.1 ∧
     (∃ lv, skipLevel (exGuardInUse (fullpathOf ("A/", "a.txt", 20, 100))) = some lv ∧
       ((1, 1), lv) ∈ (updated_nodes exGuardInUse exFs exDb).2.2) ∧
     skipLevel GuardResult.inUse = some LogLevel.info ∧
     skipLevel GuardResult.permissionError = some LogLevel.warning ∧
     skipLevel GuardResult.notFoundError = some LogLevel.warning ∧
     skipLevel GuardResult.osError = some LogLevel.error ∧
     (∀ id', (id' ∈ akeys exFs ∨ id' ∈ akeys exDb) →
       id' ∈ akeys (new_nodes exFs exDb) ∨ id' ∈ gone_nodes exFs exDb ∨
       id' ∈ (updated_nodes exGuardInUse exFs exDb).1 ∨
       id' ∈ (updated_nodes exGuardInUse exFs exDb).2.1 ∨
       id' ∈ (updated_nodes exGuardInUse exFs exDb).2.2.map Prod.fst)) :=
  ⟨⟨by decide, by decide, by decide, by decide, by decide⟩,
   claim_C5_skip_logged exGuardInUse exFs exDb (1, 1)
     ("A/", "a.txt", 20, 100) ("A/", "a.txt", 10, 100)
     (by decide) (by decide) (by decide) (by decide) (by decide)⟩

/-- Claim C6, counterexample: reconciling root "A/" modifies a record whose
root field is "B/". The catalog holds a current record for identity (1,1)
under root "B/" and one under root "A/"; the snapshot for "A/" is empty, so
the identity goes to the mark-deleted batch, and the UPDATE — which filters
on (device, inode, deleted) but not on root — also marks the "B/" record
deleted. -/
theorem claim_C6_counterexample :
    ((exStateB.get ⟨0, by decide⟩).root = "B/" ∧
     (exStateB.get ⟨0, by decide⟩).deleted = false) ∧
    (reconcile_pass 5 "A/" [] exGuard exStateB)[0]? =
      some { exStateB.get ⟨0, by decide⟩ with deleted := true } := by
  constructor
  · constructor
    · decide
    · decide
  · decide

/-- Claim C6 (amended): a pass for one root leaves a stored record unchanged
whenever the record is already deleted, or its identity occurs neither in the
snapshot nor in the current catalog of the reconciled root. (Records of other
roots sharing an identity with the pass's batches can be touched or marked
deleted, because the UPDATE statements filter on (device, inode, deleted)
only, not on root.) -/
theorem claim_C6_root_frame (now : Nat) (root : String) (fs : FilesDict)
    (g : Guard) (s : State) (i : Nat) (hi : i < s.length)
    (hcond : (s.get ⟨i, hi⟩).deleted = true ∨
      (recordId (s.get ⟨i, hi⟩) ∉ akeys fs ∧
       recordId (s.get ⟨i, hi⟩) ∉ akeys (read_database s root))) :
    (reconcile_pass now root fs g s)[i]? = some (s.get ⟨i, hi⟩) := by
  rw [reconcile_pass, compare_getElem?_old_row now fs (read_database s root) g s i hi]
  rcases hcond with hdel | ⟨hnfs, hndb⟩
  · rw [rowPass_of_deleted now _ _ _ _ hdel]
  · rw [rowPass_of_not_targeted]
    · intro hc
      exact hndb ((mem_gone_nodes fs (read_database s root) _).mp hc).1
    · intro hc
      exact hnfs ((equal_sublist g fs (read_database s root)).subset hc)
    · intro hc
      exact hnfs ((updated_sublist g fs (read_database s root)).subset hc)

/-- Witness for the amended C6: a deleted-root-B record with an identity
foreign to the pass survives a pass for root A unchanged. -/
theorem claim_C6_root_frame_witness :
    (0 < exStateC.length ∧
     (recordId (exStateC.get ⟨0, by decide⟩) ∉ akeys exFs ∧
      recordId (exStateC.get ⟨0, by decide⟩) ∉ akeys (read_database exStateC "A/"))) ∧
    (reconcile_pass 5 "A/" exFs exGuard exStateC)[0]? =
      some (exStateC.get ⟨0, by decide⟩) :=
  ⟨⟨by decide, by decide, by decide⟩,
   claim_C6_root_frame 5 "A/" exFs exGuard exStateC 0 (by decide)
     (Or.inr ⟨by decide, by decide⟩)⟩

/-- Claim C7 (frame conditions): the touch UPDATE changes only `end_date`,
the mark-deleted UPDATE changes only `deleted`, and a whole applied pass
never rewrites an existing row's `device`, `inode`, `root`, `path`,
`filesize`, `utcmtime` or `begin_date` in place. -/
theorem claim_C7_frame_conditions :
    (∀ (now : Nat) (id : FileId) (r : Record),
      coreEq r (touchRow now id r) ∧ (touchRow now id r).deleted = r.deleted) ∧
    (∀ (id : FileId) (r : Record),
      coreEq r (markDeletedRow id r) ∧ (markDeletedRow id r).end_date = r.end_date) ∧
    (∀ (now : Nat) (fs db : FilesDict) (g : Guard) (s : State) (i : Nat)
      (hi : i < s.length),
      ∃ r', (compare now fs db g s)[i]? = some r' ∧ coreEq (s.get ⟨i, hi⟩) r') := by
  refine ⟨fun now id r => touchRow_coreEq now id r,
    fun id r => markDeletedRow_coreEq id r, ?_⟩
  intro now fs db g s i hi
  rw [compare_getElem?_old_row now fs db g s i hi]
  exact ⟨_, rfl, rowPass_coreEq now _ _ _ _⟩

/-- Witness for C7 at a concrete pass position. -/
theorem claim_C7_frame_conditions_witness :
    0 < exState.length ∧
    ∃ r', (compare 5 exFs (read_database exState "A/") exGuard exState)[0]? = some r' ∧
      coreEq (exState.get ⟨0, by decide⟩) r' :=
  ⟨by decide,
   claim_C7_frame_conditions.2.2 5 exFs (read_database exState "A/") exGuard exState 0
     (by decide)⟩

/-- Claim C8: the in-use guard is invoked at most once per identity per pass
(the call list has no duplicates), only for identities present in both the
snapshot and the catalog with differing attribute tuples; and the handling of
one identity depends only on the guard's outcome at that identity's own full
path, so an exception raised for one identity never affects another
identity's classification or aborts the pass. -/
theorem claim_C8_guard_calls (g : Guard) (fs db : FilesDict)
    (hnd : (akeys fs).Nodup) :
    (guard_calls db fs).Nodup ∧
    (∀ id ∈ guard_calls db fs,
      ∃ a b, alookup id fs = some a ∧ alookup id db = some b ∧ a ≠ b) ∧
    (∀ (g2 : Guard) (id : FileId) (a : Attrs), alookup id fs = some a →
      g2 (fullpathOf a) = g (fullpathOf a) →
      ((id ∈ (updated_nodes g fs db).1 ↔ id ∈ (updated_nodes g2 fs db).1) ∧
       (id ∈ (updated_nodes g fs db).2.1 ↔ id ∈ (updated_nodes g2 fs db).2.1) ∧
       (∀ lv, (id, lv) ∈ (updated_nodes g fs db).2.2 ↔
         (id, lv) ∈ (updated_nodes g2 fs db).2.2))) := by
  refine ⟨hnd.sublist (guard_calls_sublist g fs db),
    fun id hmem => (mem_guard_calls_iff g fs db hnd id).mp hmem, ?_⟩
  intro g2 id a hfs hg2
  refine ⟨(mem_equal_iff g fs db hnd id).trans (mem_equal_iff g2 fs db hnd id).symm,
    ?_, ?_⟩
  · rw [mem_updated_iff g fs db hnd id, mem_updated_iff g2 fs db hnd id]
    constructor
    · rintro ⟨a', b', ha', hb', hne, hgg⟩
      rw [hfs] at ha'
      injection ha' with he1
      refine ⟨a, b', hfs, hb', he1 ▸ hne, ?_⟩
      rw [hg2]
      rw [← he1] at hgg
      exact hgg
    · rintro ⟨a', b', ha', hb', hne, hgg⟩
      rw [hfs] at ha'
      injection ha' with he1
      refine ⟨a, b', hfs, hb', he1 ▸ hne, ?_⟩
      rw [← he1] at hgg
      rw [← hg2]
      exact hgg
  · intro lv
    rw [mem_skipped_iff g fs db hnd id lv, mem_skipped_iff g2 fs db hnd id lv]
    constructor
    · rintro ⟨a', b', ha', hb', hne, hl⟩
      rw [hfs] at ha'
      injection ha' with he1
      refine ⟨a, b', hfs, hb', he1 ▸ hne, ?_⟩
      rw [hg2]
      rw [← he1] at hl
      exact hl
    · rintro ⟨a', b', ha', hb', hne, hl⟩
      rw [hfs] at ha'
      injection ha' with he1
      refine ⟨a, b', hfs, hb', he1 ▸ hne, ?_⟩
      rw [← he1] at hl
      rw [← hg2]
      exact hl

/-- Witness for C8 at a concrete snapshot and catalog. -/
theorem claim_C8_guard_calls_witness :
    (akeys exFs).Nodup ∧
    ((guard_calls exDb exFs).Nodup ∧
     (∀ id ∈ guard_calls exDb exFs,
       ∃ a b, alookup id exFs = some a ∧ alookup id exDb = some b ∧ a ≠ b) ∧
     (∀ (g2 : Guard) (id : FileId) (a : Attrs), alookup id exFs = some a →
       g2 (fullpathOf a) = exGuard (fullpathOf a) →
       ((id ∈ (updated_nodes exGuard exFs exDb).1 ↔
          id ∈ (updated_nodes g2 exFs exDb).1) ∧
        (id ∈ (updated_nodes exGuard exFs exDb).2.1 ↔
          id ∈ (updated_nodes g2 exFs exDb).2.1) ∧
        (∀ lv, (id, lv) ∈ (updated_nodes exGuard exFs exDb).2.2 ↔
          (id, lv) ∈ (updated_nodes g2 exFs exDb).2.2)))) :=
  ⟨by decide, claim_C8_guard_calls exGuard exFs exDb (by decide)⟩

/-- Claim C9, counterexample to the "nonzero identity" consequent: a stat
result with raw device and inode equal to 2^63 — both nonzero, so the entry
is kept — is stored under the signed-encoded identity (0, 0). -/
theorem claim_C9_counterexample :
    read_dir "p" [⟨"p/x", "r", StatResult.ok (2 ^ 63) (2 ^ 63) 0 0⟩] =
      some [((0, 0), ("p", "r", 0, 0))] ∧
    ((0 : Int), (0 : Int)) ∈ akeys [(((0 : Int), (0 : Int)),
      (("p", "r", (0 : Int), (0 : Int)) : Attrs))] := by
  constructor
  · decide
  · decide

/-- Claim C9 (amended): `read_dir` never fails the whole call because of a
single bad entry — for stat results in the ranges the operating system
guarantees, it returns the snapshot built from exactly the entries whose stat
succeeded with nonzero raw device and inode, each error or zero-identity
entry being skipped with its reason logged: permission and not-found stat
errors at warning level, other OS errors at error level, and zero raw device
or inode at warning level (the scan's log is exactly the per-entry skip
reasons, and each skipped entry's path appears in it at that level);
consequently every identity in the returned snapshot differs, in both
components, from the signed encoding of raw zero (the raw values were
nonzero, though the encoded pair itself may be (0, 0)). -/
theorem claim_C9_read_dir_skips (path : String) (entries : List Entry)
    (h : ∀ e ∈ entries, entryOk e = true) :
    (read_dir path entries =
      some (pyDict (entries.filterMap (goodPair (replaceChar '\\' '/' path)))) ∧
    ∀ id ∈ akeys (pyDict (entries.filterMap (goodPair (replaceChar '\\' '/' path)))),
      id.1 ≠ unsigned_to_signed_int_64 0 ∧ id.2 ≠ unsigned_to_signed_int_64 0) ∧
    readDirLog entries = entries.filterMap skipLogOf ∧
    ∀ e ∈ entries,
      (e.stat = StatResult.permissionError →
        (e.path, LogLevel.warning) ∈ readDirLog entries) ∧
      (e.stat = StatResult.notFoundError →
        (e.path, LogLevel.warning) ∈ readDirLog entries) ∧
      (e.stat = StatResult.osError →
        (e.path, LogLevel.error) ∈ readDirLog entries) ∧
      (∀ dev ino size mtime, e.stat = StatResult.ok dev ino size mtime →
        dev = 0 ∨ ino = 0 → (e.path, LogLevel.warning) ∈ readDirLog entries) := by
  refine ⟨⟨read_dir_eq path entries h,
    fun id hmem => akeys_goodPairs_nonzero _ entries id
      ((mem_akeys_pyDict id _).mp hmem)⟩, readDirLog_eq entries h, ?_⟩
  intro e he
  refine ⟨?_, ?_, ?_, ?_⟩
  · intro hstat
    rw [readDirLog_eq entries h]
    exact List.mem_filterMap.mpr ⟨e, he, by simp only [skipLogOf, hstat]⟩
  · intro hstat
    rw [readDirLog_eq entries h]
    exact List.mem_filterMap.mpr ⟨e, he, by simp only [skipLogOf, hstat]⟩
  · intro hstat
    rw [readDirLog_eq entries h]
    exact List.mem_filterMap.mpr ⟨e, he, by simp only [skipLogOf, hstat]⟩
  · intro dev ino size mtime hstat hzero
    rw [readDirLog_eq entries h]
    refine List.mem_filterMap.mpr ⟨e, he, ?_⟩
    simp only [skipLogOf, hstat]
    rw [if_neg (fun hc => hzero.elim (fun h0 => hc.1 h0) (fun h0 => hc.2 h0))]

/-- Witness for the amended C9: two good entries, one permission error (logged
at warning) and one zero-device entry (logged at warning). -/
theorem claim_C9_read_dir_skips_witness :
    (∀ e ∈ exEntries, entryOk e = true) ∧
    ((read_dir "p" exEntries =
        some (pyDict (exEntries.filterMap (goodPair (replaceChar '\\' '/' "p")))) ∧
      ∀ id ∈ akeys (pyDict (exEntries.filterMap (goodPair (replaceChar '\\' '/' "p")))),
        id.1 ≠ unsigned_to_signed_int_64 0 ∧ id.2 ≠ unsigned_to_signed_int_64 0) ∧
     readDirLog exEntries = exEntries.filterMap skipLogOf ∧
     ∀ e ∈ exEntries,
       (e.stat = StatResult.permissionError →
         (e.path, LogLevel.warning) ∈ readDirLog exEntries) ∧
       (e.stat = StatResult.notFoundError →
         (e.path, LogLevel.warning) ∈ readDirLog exEntries) ∧
       (e.stat = StatResult.osError →
         (e.path, LogLevel.error) ∈ readDirLog exEntries) ∧
       (∀ dev ino size mtime, e.stat = StatResult.ok dev ino size mtime →
         dev = 0 ∨ ino = 0 → (e.path, LogLevel.warning) ∈ readDirLog exEntries)) :=
  ⟨by decide, claim_C9_read_dir_skips "p" exEntries (by decide)⟩

/-- Claim C10: the snapshot returned by `read_dir` maps each identity to
exactly one attribute set (its key list has no duplicates), and when several
scanned paths share one (device, inode) pair — as hard links do — looking up
that identity returns the attributes of the last-scanned such path (lookup in
the reversed yield sequence), the earlier ones being silently dropped. -/
theorem claim_C10_hardlink_last_wins (path : String) (entries : List Entry)
    (h : ∀ e ∈ entries, entryOk e = true) :
    ∃ d, read_dir path entries = some d ∧ (akeys d).Nodup ∧
      ∀ id, alookup id d =
        alookup id (entries.filterMap (goodPair (replaceChar '\\' '/' path))).reverse :=
  ⟨pyDict (entries.filterMap (goodPair (replaceChar '\\' '/' path))),
   read_dir_eq path entries h, nodup_akeys_pyDict _, fun id => alookup_pyDict id _⟩

/-- Witness for C10: two entries sharing the raw identity (5, 7). -/
theorem claim_C10_hardlink_last_wins_witness :
    (∀ e ∈ exEntries, entryOk e = true) ∧
    ∃ d, read_dir "p" exEntries = some d ∧ (akeys d).Nodup ∧
      ∀ id, alookup id d =
        alookup id (exEntries.filterMap (goodPair (replaceChar '\\' '/' "p"))).reverse :=
  ⟨by decide, claim_C10_hardlink_last_wins "p" exEntries (by decide)⟩

end Catalog
